import Mathlib

/-!
# A verification model of SmartFridge's LLM post-processing layer

This file gives a shallow embedding, in Lean 4, of the two pieces of the
SmartFridge repository that carry actual logic:

* `OllamaClient.parse_recipe` (src/frontend/ollama_client.py): direct JSON
  parse of the LLM response, fallback extraction from markdown code fences,
  and the ingredient post-processing pipeline (name cleanup by four `re.sub`
  steps, quantity normalization, seasoning keyword detection).
* `generate_substitution_suggestions` (src/frontend/ai_service.py): parsing
  of the substitution response, per-entry validation, confidence clamping
  and rounding, fridge filtering, sorting, truncation to three entries.

Conventions of the embedding:

* Python strings are Lean `String`s / `List Char`; all index arithmetic is
  over code points, as in Python.
* Python character classes (`\s`, `\d`, word characters for `\b`, and the
  sets used by `str.strip` / `str.lower`) are modelled over ASCII; Unicode
  members of these classes are not modelled.  Theorems that depend on the
  classes take an ASCII hypothesis.
* `json.loads` is modelled by an executable recursive-descent routine
  `json_loads` over a `Json` value type.  Numbers — and Python floats
  throughout — are exact fractions (`PyFloat`, an `Int` numerator over a
  positive `Nat` denominator, interpreted in `ℚ` by `PyFloat.toRat` in
  theorem statements); the `NaN`/`Infinity` literals accepted by Python's
  json module and lone surrogate escapes are not modelled (no claim
  exercises them).
* Fallible Python operations (attribute errors, type errors) are modelled
  with `Except Unit`; `return None` is `Option.none` inside the `.ok` case.
-/

/-! ## Python character classes and basic string operations (ASCII model) -/

/-- Characters matched by Python's `\s` (ASCII part): space, tab, newline,
carriage return, vertical tab, form feed.  Also the ASCII part of the set
stripped by `str.strip()`. -/
def pyIsSpace (c : Char) : Bool :=
  c = ' ' || c = '\t' || c = '\n' || c = '\r' || c = '\x0b' || c = '\x0c'

/-- ASCII word characters, for Python's `\b` word boundary. -/
def pyIsWord (c : Char) : Bool :=
  c.isAlphanum || c = '_'

/-- ASCII lower-casing of one character, as in `str.lower()`. -/
def lowerChar (c : Char) : Char :=
  if 'A' ≤ c ∧ c ≤ 'Z' then Char.ofNat (c.toNat + 32) else c

/-- ASCII `str.lower()`. -/
def strLower (s : String) : String :=
  ⟨s.data.map lowerChar⟩

/-- Remove trailing `pyIsSpace` characters (structurally, so that proofs can
recurse on the list). -/
def stripRightL : List Char → List Char
  | [] => []
  | c :: cs =>
    if (stripRightL cs).isEmpty then (if pyIsSpace c then [] else [c]) else c :: stripRightL cs

/-- Python `str.strip()` with no arguments (ASCII whitespace model). -/
def pyStripL (cs : List Char) : List Char :=
  (stripRightL cs).dropWhile pyIsSpace

/-- Python `str.strip()` on `String`. -/
def pyStrip (s : String) : String :=
  ⟨pyStripL s.data⟩

/-- First index `≥` the running index `i` at which `pat` occurs in the list;
`none` if it does not occur.  Models the scan of `str.find`. -/
def findSubAux (pat : List Char) : List Char → Nat → Option Nat
  | [], i => if pat.isEmpty then some i else none
  | c :: cs, i => if pat.isPrefixOf (c :: cs) then some i else findSubAux pat cs (i + 1)

/-- Python `s.find(pat, start)`: first index `≥ start` where `pat` occurs,
as `Option` (`none` for Python's `-1`). -/
def pyFindFrom (s pat : String) (start : Nat) : Option Nat :=
  (findSubAux pat.data (s.data.drop start) 0).map (· + start)

/-- Python `pat in s` (substring containment). -/
def hasSubstr (s pat : String) : Bool :=
  (pyFindFrom s pat 0).isSome

/-- Python slice `s[a:b]` for `0 ≤ a`, `0 ≤ b` (clamping as in Python). -/
def pySlice (s : String) (a b : Nat) : String :=
  ⟨(s.data.drop a).take (b - a)⟩

/-! ## The four `re.sub` steps of the ingredient-name cleanup

Source, src/frontend/ollama_client.py lines 151-155:
```
name = re.sub(r'\s*\d+\.?\d*\s*(g|kg|ml|l|cup|cups|tbsp|tsp|oz|lb|gram|liter|ounce|pound|tablespoon|teaspoon|piece|pieces|small|large|handful)s?\b', '', name, flags=re.IGNORECASE)
name = re.sub(r'\s*\d+\.?\d*/?\d*\s*$', '', name)
name = re.sub(r'^\d+\.?\d*\s*', '', name)
name = re.sub(r'\s*,.*$', '', name)
name = name.strip()
```
Each pattern's quantifiers are effectively deterministic (greedy matching
never needs to backtrack, because the follow sets of adjacent pieces are
disjoint), except for the ordered alternation of unit words together with
the optional `s` and the `\b` boundary, which is modelled by trying the
alternatives in the order they occur in the source pattern. -/

/-- The unit alternation of the first pattern, in source order. -/
def unitWords : List (List Char) :=
  ["g".data, "kg".data, "ml".data, "l".data, "cup".data, "cups".data,
   "tbsp".data, "tsp".data, "oz".data, "lb".data, "gram".data, "liter".data,
   "ounce".data, "pound".data, "tablespoon".data, "teaspoon".data,
   "piece".data, "pieces".data, "small".data, "large".data, "handful".data]

/-- If `w` (already lower case) is a case-insensitive prefix of `cs`, the
remainder of `cs`; otherwise `none`. -/
def dropLowerPfx : List Char → List Char → Option (List Char)
  | [], cs => some cs
  | _, [] => none
  | w :: ws, c :: cs => if lowerChar c = w then dropLowerPfx ws cs else none

/-- `\b` after a word character: the next character is absent or not a word
character. -/
def atWordEnd : List Char → Bool
  | [] => true
  | c :: _ => !pyIsWord c

/-- The ordered alternation `(unit₁|unit₂|…)s?\b` (case-insensitive): try
each unit in order; on a prefix match try greedy `s?` then check `\b`, and
on failure fall through to the next alternative. -/
def matchUnit : List (List Char) → List Char → Option (List Char)
  | [], _ => none
  | w :: ws, cs =>
    match dropLowerPfx w cs with
    | some rest =>
      match rest with
      | c :: rest' =>
        if lowerChar c = 's' && atWordEnd rest' then some rest'
        else if atWordEnd rest then some rest
        else matchUnit ws cs
      | [] => some []
    | none => matchUnit ws cs

/-- One attempted match of pattern 1 at the head of `cs`
(`\s*\d+\.?\d*\s*(units)s?\b`, IGNORECASE): on success, the remainder after
the matched text. -/
def tryMatch1 (cs : List Char) : Option (List Char) :=
  let s1 := cs.dropWhile pyIsSpace
  match s1 with
  | c :: _ =>
    if c.isDigit then
      let s2 := s1.dropWhile Char.isDigit
      let s3 := match s2 with
        | '.' :: t => t
        | _ => s2
      let s4 := s3.dropWhile Char.isDigit
      let s5 := s4.dropWhile pyIsSpace
      matchUnit unitWords s5
    else none
  | [] => none

/-- The left-to-right global substitution of pattern 1 by `''`, fuelled (the
fuel is the length of the list, and every match consumes at least one
character). -/
def step1Fuel : Nat → List Char → List Char
  | 0, cs => cs
  | _ + 1, [] => []
  | f + 1, c :: cs =>
    match tryMatch1 (c :: cs) with
    | some rest => step1Fuel f rest
    | none => c :: step1Fuel f cs

/-- `re.sub` step 1: remove quantity-with-unit tokens. -/
def step1L (cs : List Char) : List Char :=
  step1Fuel cs.length cs

/-- Does pattern 2 (`\s*\d+\.?\d*/?\d*\s*$`) match starting exactly here and
running to the end of the string? -/
def match2At (cs : List Char) : Bool :=
  let s1 := cs.dropWhile pyIsSpace
  match s1 with
  | c :: _ =>
    if c.isDigit then
      let s2 := s1.dropWhile Char.isDigit
      let s3 := match s2 with
        | '.' :: t => t
        | _ => s2
      let s4 := s3.dropWhile Char.isDigit
      let s5 := match s4 with
        | '/' :: t => t
        | _ => s4
      let s6 := s5.dropWhile Char.isDigit
      let s7 := s6.dropWhile pyIsSpace
      s7.isEmpty
    else false
  | [] => false

/-- `re.sub` step 2: remove a trailing number/fraction (leftmost match wins;
the match always extends to the end of the string). -/
def step2L : List Char → List Char
  | [] => []
  | c :: cs => if match2At (c :: cs) then [] else c :: step2L cs

/-- `re.sub` step 3 (`^\d+\.?\d*\s*`): remove a leading number. -/
def step3L (cs : List Char) : List Char :=
  match cs with
  | c :: _ =>
    if c.isDigit then
      let s1 := cs.dropWhile Char.isDigit
      let s2 := match s1 with
        | '.' :: t => t
        | _ => s1
      let s3 := s2.dropWhile Char.isDigit
      s3.dropWhile pyIsSpace
    else cs
  | [] => []

/-- Does pattern 4 (`\s*,.*$`) match starting exactly here?  `.` does not
match a newline and `$` matches at the end or just before a final newline,
so the text after the comma may contain a newline only as its very last
character. -/
def match4At (cs : List Char) : Bool :=
  match cs.dropWhile pyIsSpace with
  | c :: rest => c = ',' && !rest.dropLast.any (fun x => x = '\n')
  | [] => false

/-- What survives after removing a pattern-4 match that starts here: nothing,
or the final newline when `$` matched just before it. -/
def after4At (cs : List Char) : List Char :=
  match cs.dropWhile pyIsSpace with
  | _ :: rest => if rest.any (fun x => x = '\n') then ['\n'] else []
  | [] => []

/-- `re.sub` step 4: remove a trailing comma clause (leftmost match wins). -/
def step4L : List Char → List Char
  | [] => []
  | c :: cs => if match4At (c :: cs) then after4At (c :: cs) else c :: step4L cs

/-- The regex pipeline of lines 151-155 (four substitutions, then
`str.strip`). -/
def cleanNameL (cs : List Char) : List Char :=
  pyStripL (step4L (step3L (step2L (step1L cs))))

/-- The full ingredient-name cleanup of lines 148-155: initial `str.strip`
on the raw name, the four substitutions, final `str.strip`. -/
def cleanupName (s : String) : String :=
  ⟨cleanNameL (pyStripL s.data)⟩

example : cleanupName "500g flour" = "flour" := by decide
example : cleanupName "2 tbsp olive oil" = "olive oil" := by decide
example : cleanupName "egg 2, fresh" = "egg 2" := by decide
example : cleanupName "egg 2" = "egg" := by decide
example : cleanupName "salt 2g2" = "salt 2g" := by decide
example : cleanupName "  milk  " = "milk" := by decide
example : cleanupName "sugar 1/2" = "sugar" := by decide

/-! ## A model of Python `json.loads`

Executable recursive descent over `List Char`, fuelled by the input length.
Faithful to the json module's grammar: JSON whitespace is space, tab,
newline, carriage return; strings are double-quoted with the standard
escapes (`\uXXXX` with surrogate-pair combination; lone surrogates, which
Python keeps, are rejected here); numbers are `-?(0|[1-9]\d*)(\.\d+)?`
with an optional exponent, modelled exactly as rationals; objects keep the
first position of a key and let a later duplicate overwrite its value, as
repeated `dict` assignment does.  The `NaN`/`Infinity` literals are not
modelled.  Trailing non-whitespace after the top value is an error
("Extra data"), as in Python. -/

/-- Python floats, modelled as exact fractions `num / den` with a positive
denominator, kept unnormalized so that every operation is executable by the
kernel.  (IEEE-754 rounding of decimal literals is not modelled; the code
under verification only clamps, rounds and compares these values.) -/
structure PyFloat where
  num : Int
  den : Nat
  dpos : 0 < den

/-- The rational value of a `PyFloat` (used only in theorem statements). -/
def PyFloat.toRat (a : PyFloat) : ℚ :=
  (a.num : ℚ) / (a.den : ℚ)

/-- Embed an integer. -/
def PyFloat.ofInt (n : Int) : PyFloat :=
  ⟨n, 1, Nat.one_pos⟩

/-- Python `a < b` on floats, by cross multiplication. -/
def PyFloat.lt (a b : PyFloat) : Bool :=
  a.num * (b.den : Int) < b.num * (a.den : Int)

inductive Json where
  | null : Json
  | bool (b : Bool) : Json
  | num (q : PyFloat) : Json
  | str (s : String) : Json
  | arr (elems : List Json) : Json
  | obj (entries : List (String × Json)) : Json

/-- JSON whitespace. -/
def jsonWs (c : Char) : Bool :=
  c = ' ' || c = '\t' || c = '\n' || c = '\r'

/-- Hex digit value. -/
def hexVal (c : Char) : Option Nat :=
  if '0' ≤ c ∧ c ≤ '9' then some (c.toNat - '0'.toNat)
  else if 'a' ≤ c ∧ c ≤ 'f' then some (c.toNat - 'a'.toNat + 10)
  else if 'A' ≤ c ∧ c ≤ 'F' then some (c.toNat - 'A'.toNat + 10)
  else none

/-- Four hex digits of a `\uXXXX` escape. -/
def hex4 : List Char → Option (Nat × List Char)
  | a :: b :: c :: d :: rest =>
    match hexVal a, hexVal b, hexVal c, hexVal d with
    | some x, some y, some z, some w => some (((x * 16 + y) * 16 + z) * 16 + w, rest)
    | _, _, _, _ => none
  | _ => none

/-- Body of a JSON string after the opening quote; fuelled. -/
def jStrBody : Nat → List Char → Option (List Char × List Char)
  | 0, _ => none
  | _ + 1, [] => none
  | f + 1, c :: cs =>
    if c = '"' then some ([], cs)
    else if c = '\\' then
      match cs with
      | [] => none
      | e :: cs' =>
        if e = 'u' then
          match hex4 cs' with
          | some (n, rest) =>
            if 0xD800 ≤ n ∧ n ≤ 0xDBFF then
              match rest with
              | '\\' :: 'u' :: rest' =>
                match hex4 rest' with
                | some (m, rest'') =>
                  if 0xDC00 ≤ m ∧ m ≤ 0xDFFF then
                    let code := 0x10000 + (n - 0xD800) * 0x400 + (m - 0xDC00)
                    (jStrBody f rest'').map (fun p => (Char.ofNat code :: p.1, p.2))
                  else none
                | none => none
              | _ => none
            else if 0xDC00 ≤ n ∧ n ≤ 0xDFFF then none
            else (jStrBody f rest).map (fun p => (Char.ofNat n :: p.1, p.2))
          | none => none
        else
          let dec : Option Char :=
            if e = '"' then some '"'
            else if e = '\\' then some '\\'
            else if e = '/' then some '/'
            else if e = 'b' then some '\x08'
            else if e = 'f' then some '\x0c'
            else if e = 'n' then some '\n'
            else if e = 'r' then some '\r'
            else if e = 't' then some '\t'
            else none
          match dec with
          | some ch => (jStrBody f cs').map (fun p => (ch :: p.1, p.2))
          | none => none
    else if c.toNat < 0x20 then none
    else (jStrBody f cs).map (fun p => (c :: p.1, p.2))

/-- Digits of a number. -/
def takeDigits (cs : List Char) : List Char × List Char :=
  (cs.takeWhile Char.isDigit, cs.dropWhile Char.isDigit)

/-- Value of a digit string. -/
def digitsVal (ds : List Char) : Nat :=
  ds.foldl (fun a c => a * 10 + (c.toNat - '0'.toNat)) 0

/-- JSON number at the head of the input:
`-?(0|[1-9]\\d*)(\\.\\d+)?([eE][+-]?\\d+)?`, as an exact fraction. -/
def jNum (cs : List Char) : Option (PyFloat × List Char) :=
  let (neg, cs1) := match cs with
    | '-' :: t => (true, t)
    | _ => (false, cs)
  match cs1 with
  | c :: _ =>
    if ¬ c.isDigit then none
    else
      let (ds, rest) := takeDigits cs1
      if ds.length > 1 ∧ c = '0' then none
      else
        let fracStep : Option (List Char × List Char) := match rest with
          | '.' :: t =>
            match takeDigits t with
            | ([], _) => none
            | (fs, r) => some (fs, r)
          | _ => some ([], rest)
        match fracStep with
        | none => none
        | some (fs, rest2) =>
          let m : Nat := digitsVal ds * 10 ^ fs.length + digitsVal fs
          let sgnm : Int := if neg then -(m : Int) else (m : Int)
          match rest2 with
          | e :: t =>
            if e = 'e' ∨ e = 'E' then
              let (eneg, t2) := match t with
                | '-' :: t' => (true, t')
                | '+' :: t' => (false, t')
                | _ => (false, t)
              match takeDigits t2 with
              | ([], _) => none
              | (es, r) =>
                let ex := digitsVal es
                if eneg then
                  some (⟨sgnm, 10 ^ fs.length * 10 ^ ex, by positivity⟩, r)
                else
                  some (⟨sgnm * (10 ^ ex : Nat), 10 ^ fs.length, by positivity⟩, r)
            else some (⟨sgnm, 10 ^ fs.length, by positivity⟩, rest2)
          | [] => some (⟨sgnm, 10 ^ fs.length, by positivity⟩, [])
  | [] => none

/-- Insert a key into an object under construction: a repeated key
overwrites the value in place, as repeated `dict` assignment does. -/
def objInsert (kvs : List (String × Json)) (k : String) (v : Json) : List (String × Json) :=
  if kvs.any (fun kv => kv.1 = k) then
    kvs.map (fun kv => if kv.1 = k then (k, v) else kv)
  else kvs ++ [(k, v)]

/-- One JSON value starting exactly at the head of the input, fuelled.
The element loop of an array and the entry loop of an object are encoded by
re-entering the function on the rest of the input with the opening bracket
put back, guarding against an immediately following closing bracket so that
trailing commas are rejected as in Python. -/
def jValue : Nat → List Char → Option (Json × List Char)
  | 0, _ => none
  | f + 1, cs =>
    match cs with
    | [] => none
    | c :: rest =>
      if c = '"' then (jStrBody (f + 1) rest).map (fun p => (Json.str ⟨p.1⟩, p.2))
      else if c = '[' then
        match rest.dropWhile jsonWs with
        | ']' :: r => some (Json.arr [], r)
        | r =>
          match jValue f r with
          | none => none
          | some (v, rest') =>
            match rest'.dropWhile jsonWs with
            | ']' :: r' => some (Json.arr [v], r')
            | ',' :: r' =>
              match r'.dropWhile jsonWs with
              | ']' :: _ => none
              | r'' =>
                match jValue f ('[' :: r'') with
                | some (Json.arr vs, r3) => some (Json.arr (v :: vs), r3)
                | _ => none
            | _ => none
      else if c = '{' then
        match rest.dropWhile jsonWs with
        | '}' :: r => some (Json.obj [], r)
        | '"' :: r =>
          match jStrBody f r with
          | none => none
          | some (k, rest') =>
            match rest'.dropWhile jsonWs with
            | ':' :: r2 =>
              match jValue f (r2.dropWhile jsonWs) with
              | none => none
              | some (v, rest2) =>
                match rest2.dropWhile jsonWs with
                | '}' :: r3 => some (Json.obj [(⟨k⟩, v)], r3)
                | ',' :: r3 =>
                  match r3.dropWhile jsonWs with
                  | '"' :: r4 =>
                    match jValue f ('{' :: '"' :: r4) with
                    | some (Json.obj kvs, r5) =>
                      some (Json.obj (kvs.foldl (fun a kv => objInsert a kv.1 kv.2) [(⟨k⟩, v)]), r5)
                    | _ => none
                  | _ => none
                | _ => none
            | _ => none
        | _ => none
      else if c = 't' then
        match cs with
        | 't' :: 'r' :: 'u' :: 'e' :: r => some (Json.bool true, r)
        | _ => none
      else if c = 'f' then
        match cs with
        | 'f' :: 'a' :: 'l' :: 's' :: 'e' :: r => some (Json.bool false, r)
        | _ => none
      else if c = 'n' then
        match cs with
        | 'n' :: 'u' :: 'l' :: 'l' :: r => some (Json.null, r)
        | _ => none
      else (jNum cs).map (fun p => (Json.num p.1, p.2))

/-- The model of `json.loads`: skip leading whitespace, read one value,
allow trailing whitespace only. -/
def json_loads (s : String) : Option Json :=
  let cs := s.data.dropWhile jsonWs
  match jValue (2 * s.length + 2) cs with
  | some (v, rest) => if (rest.dropWhile jsonWs).isEmpty then some v else none
  | none => none

/-- Lookup in a parsed object (keys are unique by construction). -/
def dictGet (j : Json) (k : String) : Option Json :=
  match j with
  | Json.obj kvs => (kvs.find? (fun kv => kv.1 = k)).map (·.2)
  | _ => none

example : json_loads "\x7b\"a\": 1\x7d" = some (Json.obj [("a", Json.num ⟨1, 1, Nat.one_pos⟩)]) := rfl
example : json_loads "\x7boops" = none := rfl
example : json_loads " [1, 2.5, \"x\", true, null] " =
    some (Json.arr [Json.num ⟨1, 1, Nat.one_pos⟩, Json.num ⟨25, 10, by norm_num⟩,
      Json.str "x", Json.bool true, Json.null]) := rfl
example : json_loads "\x7b\"a\": 1, \"a\": 2\x7d" =
    some (Json.obj [("a", Json.num ⟨2, 1, Nat.one_pos⟩)]) := rfl
example : json_loads "\x7b\"a\": 1\x7d x" = none := rfl
example : json_loads "-1.5e2" = some (Json.num ⟨-1500, 10, by norm_num⟩) := rfl
example : json_loads "\"a\\nb\"" = some (Json.str "a\nb") := rfl

/-! ## The model of `OllamaClient.parse_recipe`
(src/frontend/ollama_client.py, lines 69-218)

The network call `self.generate(prompt, format_json=True)` is an oracle:
the model takes the response it would produce (`none` models both a `None`
return and, through the emptiness test `if not response`, is paired with
the empty string).  Python exceptions that escape `parse_recipe` (the
`try` at line 118 catches only `json.JSONDecodeError`) are `.error ()`;
`return None` is `.ok none`; a returned value is `.ok (some v)`. -/

/-- Python `str()` of a decoded JSON value.  `repr` of floats, lists and
dicts is abbreviated (no claim reaches `str()` on a non-string name with
one of those shapes); the cases the claims exercise — strings, `None`,
booleans, integers — are exact. -/
def pyStr (j : Json) : String :=
  match j with
  | Json.null => "None"
  | Json.bool true => "True"
  | Json.bool false => "False"
  | Json.str s => s
  | Json.num q => if q.den = 1 then toString q.num else toString q.num ++ "/" ++ toString q.den
  | Json.arr _ => "[…]"
  | Json.obj _ => "\x7b…\x7d"

/-- Python `key in container` for a string key: key membership for a dict,
equality membership for a list, substring test for a string, and
`TypeError` for the other shapes. -/
def pyIn (k : String) (j : Json) : Except Unit Bool :=
  match j with
  | Json.obj kvs => .ok (kvs.any (fun kv => kv.1 = k))
  | Json.arr l => .ok (l.any (fun e => match e with
      | Json.str t => t = k
      | _ => false))
  | Json.str t => .ok (hasSubstr t k)
  | _ => .error ()

/-- Python `container[key]` for a string key: dict lookup (the caller has
already established membership), `TypeError` otherwise. -/
def pySubscript (j : Json) (k : String) : Except Unit Json :=
  match j with
  | Json.obj _ =>
    match dictGet j k with
    | some v => .ok v
    | none => .error ()
  | _ => .error ()

/-- Lines 124-125: `if "recipe name" in parsed and "name" not in parsed:
parsed["name"] = parsed.pop("recipe name")`.  `pop` with a string argument
is an error on anything but a dict. -/
def fixRecipeName (parsed : Json) : Except Unit Json :=
  match pyIn "recipe name" parsed with
  | .error e => .error e
  | .ok false => .ok parsed
  | .ok true =>
    match pyIn "name" parsed with
    | .error e => .error e
    | .ok true => .ok parsed
    | .ok false =>
      match parsed with
      | Json.obj kvs =>
        match dictGet parsed "recipe name" with
        | some v => .ok (Json.obj ((kvs.filter (fun kv => kv.1 ≠ "recipe name")) ++ [("name", v)]))
        | none => .error ()
      | _ => .error ()

/-- Python iteration `for x in value`: list elements, characters of a
string (as one-character strings), keys of a dict, `TypeError` otherwise. -/
def pyIterate (j : Json) : Except Unit (List Json) :=
  match j with
  | Json.arr l => .ok l
  | Json.str s => .ok (s.data.map (fun c => Json.str ⟨[c]⟩))
  | Json.obj kvs => .ok (kvs.map (fun kv => Json.str kv.1))
  | _ => .error ()

/-- Lines 131-136: flattening of nested `"ingredients"` arrays. -/
def flattenIngredients : List Json → Except Unit (List Json)
  | [] => .ok []
  | ing :: rest =>
    match pyIn "ingredients" ing with
    | .error e => .error e
    | .ok true =>
      match ing with
      | Json.obj _ =>
        match dictGet ing "ingredients" with
        | some (Json.arr l) => (flattenIngredients rest).map (fun acc => l ++ acc)
        | some _ => (flattenIngredients rest).map (fun acc => ing :: acc)
        | none => .error ()
      | _ => .error ()
    | .ok false => (flattenIngredients rest).map (fun acc => ing :: acc)

/-- Line 164-167: the fixed seasoning keyword list. -/
def seasoningKeywords : List String :=
  ["salt", "pepper", "sugar", "oil", "sauce", "vinegar",
   "spice", "cumin", "paprika", "oregano", "basil", "thyme",
   "bay leaf", "star anise", "cinnamon", "clove", "ginger",
   "peppercorn", "fennel", "paste", "fermented", "peanut butter"]

/-- Python truthiness `bool(x)` of a decoded JSON value. -/
def pyTruthy (j : Json) : Bool :=
  match j with
  | Json.null => false
  | Json.bool b => b
  | Json.num q => q.num ≠ 0
  | Json.str s => s ≠ ""
  | Json.arr l => ¬ l.isEmpty
  | Json.obj kvs => ¬ kvs.isEmpty

/-- Lines 168-175: the seasoning flag for one ingredient dict, given the
already-cleaned name.  A string-valued `isSeasoning` counts as true exactly
for (case-insensitive) `'true'`, `'1'`, `'yes'`; otherwise Python
truthiness applies; and any keyword occurring in the lower-cased cleaned
name forces `true`. -/
def seasoningFlag (isSeasField : Option Json) (name : String) : Bool :=
  let base := match isSeasField.getD (Json.bool false) with
    | Json.str s => strLower s = "true" ∨ strLower s = "1" ∨ strLower s = "yes"
    | j => pyTruthy j
  if (seasoningKeywords.any (fun kw => hasSubstr (strLower name) kw)) then true else base

/-- Lines 157: the category headers that are dropped. -/
def categoryHeaders : List String :=
  ["spices", "aromatics", "spices and aromatics"]

/-- Lines 142-143: a plain string ingredient becomes a dict with default
quantity and seasoning flag. -/
def strWrap (ing : Json) : Json :=
  match ing with
  | Json.str s => Json.obj [("name", Json.str s), ("quantity", Json.str "1"),
                            ("isSeasoning", Json.bool false)]
  | j => j

/-- Line 148: the cleaned name of an ingredient dict. -/
def ingName (ing : Json) : String :=
  cleanupName (pyStr ((dictGet ing "name").getD (Json.str "")))

/-- Lines 140-181: processing of one (flattened) ingredient entry.
`none` means the entry is skipped (`continue`). -/
def processIng (ing : Json) : Option Json :=
  match strWrap ing with
  | Json.obj kvs =>
    if ingName (Json.obj kvs) = "" ∨ strLower (ingName (Json.obj kvs)) ∈ categoryHeaders then none
    else
      some (Json.obj [("name", Json.str (ingName (Json.obj kvs))), ("quantity", Json.str "1"),
        ("isSeasoning", Json.bool (seasoningFlag (dictGet (Json.obj kvs) "isSeasoning")
          (ingName (Json.obj kvs))))])
  | _ => none

/-- Lines 123-186: the whole post-processing applied on the direct-parse
success path. -/
def postprocess (parsed : Json) : Except Unit Json :=
  match fixRecipeName parsed with
  | .error e => .error e
  | .ok p1 =>
    match pyIn "ingredients" p1 with
    | .error e => .error e
    | .ok false => .ok p1
    | .ok true =>
      match pySubscript p1 "ingredients" with
      | .error e => .error e
      | .ok ingVal =>
        match pyIterate ingVal with
        | .error e => .error e
        | .ok items =>
          match flattenIngredients items with
          | .error e => .error e
          | .ok flat =>
            match p1 with
            | Json.obj kvs =>
              .ok (Json.obj (kvs.map (fun kv =>
                if kv.1 = "ingredients" then
                  ("ingredients", Json.arr (flat.filterMap processIng)) else kv)))
            | _ => .error ()

/-- Lines 191-201 and 202-212: the text sliced out of a markdown fence
starting at `start` (just after the opening marker): up to the next
closing ```` ``` ````, or with Python's `response[start:-1]` when there is
no closing fence. -/
def sliceToFence (r : String) (start : Nat) : String :=
  match pyFindFrom r "```" start with
  | some e => pySlice r start e
  | none => pySlice r start (r.length - 1)

/-- The stripped candidate text of the ```` ```json ```` branch. -/
def jsonFenceText (r : String) : String :=
  pyStrip (sliceToFence r ((pyFindFrom r "```json" 0).getD 0 + 7))

/-- The stripped candidate text of the generic ```` ``` ```` branch. -/
def genFenceText (r : String) : String :=
  pyStrip (sliceToFence r ((pyFindFrom r "```" 0).getD 0 + 3))

/-- `OllamaClient.parse_recipe`, as a function of the oracle response
(lines 109-218).  `.error ()` models an escaping exception, `.ok none`
models `return None`. -/
def parse_recipe (response : Option String) : Except Unit (Option Json) :=
  match response with
  | none => .ok none
  | some r =>
    if r = "" then .ok none
    else
      match json_loads r with
      | some parsed => (postprocess parsed).map some
      | none =>
        if hasSubstr r "```json" then
          match json_loads (jsonFenceText r) with
          | some p => .ok (some p)
          | none => .ok none
        else if hasSubstr r "```" then
          match json_loads (genFenceText r) with
          | some p => .ok (some p)
          | none => .ok none
        else .ok none

/-! ## The model of `generate_substitution_suggestions`
(src/frontend/ai_service.py, lines 95-218)

The prompt text itself is irrelevant to the result, but building it can
raise: `', '.join(fridge_supplies[:20])` (line 100, evaluated only when the
fridge list is non-empty) and `', '.join(recipe_ingredients[:10])`
(line 111) require string items, and both run before the `try` at line
139.  Everything inside that `try` that raises is caught and turned into
`return []`.  The LLM call is again an oracle argument. -/

/-- Is this decoded JSON value a string? -/
def isStrB (j : Json) : Bool :=
  match j with
  | Json.str _ => true
  | _ => false

/-- Python `', '.join(items)`: `TypeError` unless every item is a string
(the joined text is irrelevant to the result). -/
def pyJoinStrs (items : List Json) : Except Unit Unit :=
  if items.all isStrB then .ok () else .error ()

/-- Python `float(s)`: optional surrounding whitespace and sign, then a
decimal literal `d*.?d*` containing at least one digit, with an optional
exponent.  (`inf`/`nan` spellings and digit-group underscores are accepted
by Python but not modelled; both clamp into `[0,1]` anyway.) -/
def pyFloatOfString (s : String) : Option PyFloat :=
  let cs := pyStripL s.data
  let (neg, cs1) := match cs with
    | '-' :: t => (true, t)
    | '+' :: t => (false, t)
    | _ => (false, cs)
  let (ds, r1) := takeDigits cs1
  let (fs, r2) : List Char × List Char := match r1 with
    | '.' :: t => takeDigits t
    | _ => ([], r1)
  if ds.length + fs.length = 0 then none
  else
    let m : Nat := digitsVal ds * 10 ^ fs.length + digitsVal fs
    let sgnm : Int := if neg then -(m : Int) else (m : Int)
    match r2 with
    | [] => some ⟨sgnm, 10 ^ fs.length, by positivity⟩
    | e :: t =>
      if e = 'e' ∨ e = 'E' then
        let (eneg, t2) := match t with
          | '-' :: t' => (true, t')
          | '+' :: t' => (false, t')
          | _ => (false, t)
        match takeDigits t2 with
        | ([], _) => none
        | (es, r) =>
          if ¬ r.isEmpty then none
          else
            let ex := digitsVal es
            if eneg then some ⟨sgnm, 10 ^ fs.length * 10 ^ ex, by positivity⟩
            else some ⟨sgnm * ((10 ^ ex : Nat) : Int), 10 ^ fs.length, by positivity⟩
      else none

/-- Python `min(1.0, c)` (keeps the first argument unless the second is
strictly smaller) followed by `max(0.0, ·)` (keeps the first argument
unless the second is strictly larger): the clamp of line 179. -/
def clamp01 (c : PyFloat) : PyFloat :=
  let m := if PyFloat.lt c (PyFloat.ofInt 1) then c else PyFloat.ofInt 1
  if PyFloat.lt (PyFloat.ofInt 0) m then m else PyFloat.ofInt 0

/-- Round-half-even of the fraction `n / d` (`d > 0`) to the nearest
integer, as Python's float rounding does on exact values. -/
def roundHalfEvenInt (n d : Int) : Int :=
  if 2 * (n - n / d * d) < d then n / d
  else if d < 2 * (n - n / d * d) then n / d + 1
  else if n / d % 2 = 0 then n / d else n / d + 1

/-- `round(x, 2)`: round to the nearest multiple of 1/100, ties to even
(Python rounds the decimal value of the binary float; on our exact
fractions this is round-half-even of `100·x`). -/
def pyRound2 (c : PyFloat) : PyFloat :=
  ⟨roundHalfEvenInt (c.num * 100) (c.den : Int), 100, by norm_num⟩

/-- One entry of the returned substitutes list. -/
structure SubEntry where
  ingredient : String
  inFridge : Bool
  confidence : PyFloat
  reasoning : Json

/-- Line 182: lower-casing of every fridge item; a non-string item is an
`AttributeError`. -/
def lowerFridge : List Json → Except Unit (List String)
  | [] => .ok []
  | Json.str s :: rest => (lowerFridge rest).map (fun l => strLower s :: l)
  | _ :: _ => .error ()

/-- Lines 158-201: validation and cleaning of one substitute.  `.ok none`
is `continue` (the entry is skipped); `.error ()` is an exception that the
outer handler turns into `return []`.  The fridge list is lower-cased
inside the loop (line 182), so a non-string fridge item only raises when
some substitute reaches that point. -/
def processSub (fridge : List Json) (sub : Json) : Except Unit (Option SubEntry) :=
  match sub with
  | Json.obj _ =>
    match (dictGet sub "ingredient").getD (Json.str "") with
    | Json.str s0 =>
      if pyStrip s0 = "" then .ok none
      else
        match (match (dictGet sub "confidence").getD (Json.num ⟨1, 2, by norm_num⟩) with
          | Json.str s => Except.ok ((pyFloatOfString s).getD ⟨1, 2, by norm_num⟩)
          | Json.num q => Except.ok q
          | Json.bool b => Except.ok (PyFloat.ofInt (if b then 1 else 0))
          | _ => Except.error () : Except Unit PyFloat) with
        | .error e => .error e
        | .ok conf0 =>
          match lowerFridge fridge with
          | .error e => .error e
          | .ok fridgeLower =>
            if ¬ fridgeLower.contains (strLower (pyStrip s0)) then .ok none
            else
              match (dictGet sub "reasoning").getD (Json.str "Suitable alternative") with
              | Json.str s =>
                .ok (some ⟨pyStrip s0, true, pyRound2 (clamp01 conf0), Json.str ⟨s.data.take 200⟩⟩)
              | Json.arr l =>
                .ok (some ⟨pyStrip s0, true, pyRound2 (clamp01 conf0), Json.arr (l.take 200)⟩)
              | _ => .error ()
    | _ => .error ()
  | _ => .ok none

/-- Descending order on confidence, for `sort(key=..., reverse=True)`. -/
def confGE (a b : SubEntry) : Prop :=
  b.confidence.num * (a.confidence.den : Int) ≤ a.confidence.num * (b.confidence.den : Int)

instance : DecidableRel confGE := fun _ _ => Int.decLe _ _

instance : IsTotal SubEntry confGE :=
  ⟨fun a b => by
    unfold confGE
    rcases Int.le_total (b.confidence.num * (a.confidence.den : Int))
      (a.confidence.num * (b.confidence.den : Int)) with h | h
    · exact Or.inl h
    · exact Or.inr h⟩

instance : IsTrans SubEntry confGE :=
  ⟨fun a b c hab hbc => by
    unfold confGE at hab hbc ⊢
    have hbpos : (0 : Int) < (b.confidence.den : Int) := by
      exact_mod_cast b.confidence.dpos
    have h1 := mul_le_mul_of_nonneg_right hab
      (by positivity : (0 : Int) ≤ (c.confidence.den : Int))
    have h2 := mul_le_mul_of_nonneg_right hbc
      (by positivity : (0 : Int) ≤ (a.confidence.den : Int))
    have h3 : c.confidence.num * (a.confidence.den : Int) * (b.confidence.den : Int) ≤
        a.confidence.num * (c.confidence.den : Int) * (b.confidence.den : Int) := by
      nlinarith
    exact le_of_mul_le_mul_right h3 hbpos⟩

/-- The validation loop over the decoded substitutes, in order; the first
entry that raises aborts the whole computation. -/
def collectSubs (fridge : List Json) : List Json → Except Unit (List SubEntry)
  | [] => .ok []
  | sub :: rest =>
    match processSub fridge sub with
    | .error e => .error e
    | .ok none => collectSubs fridge rest
    | .ok (some e) => (collectSubs fridge rest).map (fun l => e :: l)

/-- Lines 149-207: the body of the inner `try` on a non-empty response:
parse, validate each substitute, sort by confidence descending, return the
first three. -/
def genBody (r : String) (fridge : List Json) : Except Unit (List SubEntry) :=
  match json_loads r with
  | none => .ok []
  | some parsed =>
    match parsed with
    | Json.obj _ =>
      match pyIterate ((dictGet parsed "substitutes").getD (Json.arr [])) with
      | .error e => .error e
      | .ok items =>
        match collectSubs fridge items with
        | .error e => .error e
        | .ok entries => .ok ((List.insertionSort confGE entries).take 3)
    | _ => .error ()

/-- `generate_substitution_suggestions` as a function of the oracle
response and the two JSON-decoded list arguments.  The two joins of the
prompt construction run outside the `try` and may raise; everything else
that raises is caught and mapped to `[]`. -/
def generate_substitution_suggestions (resp : Option String)
    (recipeIngredients fridge : List Json) : Except Unit (List SubEntry) :=
  match (if fridge.isEmpty then Except.ok () else pyJoinStrs (fridge.take 20)) with
  | .error e => .error e
  | .ok _ =>
    match pyJoinStrs (recipeIngredients.take 10) with
    | .error e => .error e
    | .ok _ =>
      match resp with
      | none => .ok []
      | some r =>
        if r = "" then .ok []
        else
          match genBody r fridge with
          | .ok l => .ok l
          | .error _ => .ok []

/-! ## Definitions used by the claim statements and proofs -/

/-- No further pattern-4 match anywhere in the list. -/
def noMatch4 : List Char → Bool
  | [] => true
  | c :: cs => !match4At (c :: cs) && noMatch4 cs

/-- The last character, if any, is not whitespace. -/
def lastNotSpace (l : List Char) : Prop :=
  ∀ x, l.getLast? = some x → pyIsSpace x = false

/-- The ingredients list of a parsed-recipe value (empty when absent or not
a list). -/
def resultIngredients (j : Json) : List Json :=
  match dictGet j "ingredients" with
  | some (Json.arr l) => l
  | _ => []

/-- The spec-side notion of a truthy `isSeasoning` field: for strings,
exactly the (case-insensitive) spellings `'true'`, `'1'`, `'yes'`; for
every other shape, Python truthiness; a missing field defaults to
`False`. -/
def truthySeasField (field : Option Json) : Prop :=
  match field.getD (Json.bool false) with
  | Json.str s => strLower s = "true" ∨ strLower s = "1" ∨ strLower s = "yes"
  | j => pyTruthy j = true

/-- The fence-path response used to refute C3: direct parse fails on the
backticks, the ```` ```json ```` extraction succeeds, and the extracted
recipe carries quantity `"2"`. -/
def qtyTwoResp : String :=
  "```json\n\x7b\"ingredients\": [\x7b\"name\": \"milk\", \"quantity\": \"2\"\x7d]\x7d\n```"

/-- The value `parse_recipe` returns for `qtyTwoResp`, verbatim. -/
def qtyTwoRecipe : Json :=
  Json.obj [("ingredients", Json.arr
    [Json.obj [("name", Json.str "milk"), ("quantity", Json.str "2")]])]

/-- The response used to refute C7's "three attempts" description: a valid
generic fenced block comes first, then a ```` ```json ```` block with broken
JSON.  Because of the `elif` at line 202, the generic extraction — which
would succeed — is never attempted once `"```json" in response` holds. -/
def twoFenceResp : String :=
  "```\n\x7b\"a\": 1\x7d\n```\n```json\n\x7boops\n```"

/-- `pat` occurs in `l` starting at index `k`. -/
def occursAt (l pat : List Char) (k : Nat) : Bool :=
  pat.isPrefixOf (l.drop k)

/-- A fenced code block somewhere in the response whose inner text (up to
the next closing fence) parses as JSON after stripping: the premise of
claim C1. -/
def HasValidFencedBlock (r : String) : Prop :=
  ∃ pre inner post : String,
    (r = pre ++ "```json" ++ inner ++ "```" ++ post ∨
      r = pre ++ "```" ++ inner ++ "```" ++ post) ∧
    hasSubstr inner "```" = false ∧ (json_loads (pyStrip inner)).isSome = true

/-- The length Python's slicing bounds: characters of a string, elements of
a list. -/
def reasonLen (j : Json) : Nat :=
  match j with
  | Json.str s => s.length
  | Json.arr l => l.length
  | _ => 0

/-! ## Digit-free and newline-free behaviour of the cleanup steps -/

/-- No decimal digit occurs in the list. -/
def noDigit (cs : List Char) : Prop :=
  ∀ c ∈ cs, c.isDigit = false

theorem stripRightL_subset : ∀ {cs : List Char}, ∀ c ∈ stripRightL cs, c ∈ cs := by
  intro cs
  induction cs with
  | nil => intro c hc; simp only [stripRightL] at hc; cases hc
  | cons a as ih =>
    intro c hc
    simp only [stripRightL] at hc
    by_cases h : (stripRightL as).isEmpty
    · rw [if_pos h] at hc
      by_cases hs : pyIsSpace a
      · rw [if_pos hs] at hc; cases hc
      · rw [if_neg hs] at hc
        simp only [List.mem_singleton] at hc
        rw [hc]; exact List.mem_cons_self a as
    · rw [if_neg h] at hc
      rcases List.mem_cons.mp hc with rfl | hc
      · exact List.mem_cons_self c as
      · exact List.mem_cons_of_mem _ (ih c hc)

theorem pyStripL_subset {cs : List Char} : ∀ c ∈ pyStripL cs, c ∈ cs :=
  fun c hc => stripRightL_subset c (List.dropWhile_subset pyIsSpace hc)

theorem tryMatch1_eq_none {cs : List Char} (h : noDigit cs) : tryMatch1 cs = none := by
  unfold tryMatch1
  cases hdw : cs.dropWhile pyIsSpace with
  | nil => rfl
  | cons c t =>
    have hc : c.isDigit = false := by
      refine h c (List.dropWhile_subset pyIsSpace ?_)
      rw [hdw]; exact List.mem_cons_self c t
    simp [hc]

theorem step1Fuel_id : ∀ (f : Nat) (cs : List Char), noDigit cs → step1Fuel f cs = cs := by
  intro f
  induction f with
  | zero => intro cs _; rfl
  | succ f ih =>
    intro cs h
    cases cs with
    | nil => rfl
    | cons c t =>
      rw [step1Fuel, tryMatch1_eq_none h, ih t (fun x hx => h x (List.mem_cons_of_mem _ hx))]

theorem step1L_id {cs : List Char} (h : noDigit cs) : step1L cs = cs :=
  step1Fuel_id _ cs h

theorem match2At_eq_false {cs : List Char} (h : noDigit cs) : match2At cs = false := by
  unfold match2At
  cases hdw : cs.dropWhile pyIsSpace with
  | nil => rfl
  | cons c t =>
    have hc : c.isDigit = false := by
      refine h c (List.dropWhile_subset pyIsSpace ?_)
      rw [hdw]; exact List.mem_cons_self c t
    simp [hc]

theorem step2L_id : ∀ {cs : List Char}, noDigit cs → step2L cs = cs := by
  intro cs
  induction cs with
  | nil => intro _; rfl
  | cons c t ih =>
    intro h
    rw [step2L, match2At_eq_false h, if_neg (by simp), ih (fun x hx => h x (List.mem_cons_of_mem _ hx))]

theorem step3L_id {cs : List Char} (h : noDigit cs) : step3L cs = cs := by
  unfold step3L
  cases cs with
  | nil => rfl
  | cons c t =>
    have hc : c.isDigit = false := h c (List.mem_cons_self c t)
    simp [hc]

theorem match4At_nil : match4At [] = false := rfl

theorem noMatch4_first {cs : List Char} (h : noMatch4 cs = true) : match4At cs = false := by
  cases cs with
  | nil => rfl
  | cons c t =>
    rw [noMatch4, Bool.and_eq_true, Bool.not_eq_true'] at h
    exact h.1

theorem noMatch4_rest {c : Char} {cs : List Char} (h : noMatch4 (c :: cs) = true) :
    noMatch4 cs = true := by
  rw [noMatch4, Bool.and_eq_true] at h
  exact h.2

theorem match4At_cons_space {c : Char} {cs : List Char} (hc : pyIsSpace c = true) :
    match4At (c :: cs) = match4At cs := by
  simp only [match4At, List.dropWhile_cons, hc, if_true]

theorem match4At_cons_comma {cs : List Char} (hn : '\n' ∉ cs) :
    match4At (',' :: cs) = true := by
  have hsp : pyIsSpace ',' = false := by decide
  simp only [match4At, List.dropWhile_cons, hsp, if_false]
  have : cs.dropLast.any (fun x => x = '\n') = false := by
    rw [List.any_eq_false]
    intro x hx
    simp only [decide_eq_true_eq]
    intro hxeq
    exact hn (hxeq ▸ List.dropLast_subset _ hx)
  simp [this]

theorem match4At_cons_nonspace {c : Char} {cs : List Char} (hsp : pyIsSpace c = false)
    (hne : c ≠ ',') : match4At (c :: cs) = false := by
  simp only [match4At, List.dropWhile_cons, hsp, if_false]
  simp [hne]

/-- Heads of non-space positions before a match are not commas, on
newline-free input with no match at that position. -/
theorem head_ne_comma {c : Char} {cs : List Char} (hsp : pyIsSpace c = false)
    (hn : '\n' ∉ cs) (h4 : match4At (c :: cs) = false) : c ≠ ',' := by
  intro he
  subst he
  rw [match4At_cons_comma hn] at h4
  cases h4

theorem after4At_eq_nil {cs : List Char} (hn : ∀ x ∈ cs, x ≠ '\n') :
    after4At cs = [] := by
  unfold after4At
  cases hdw : cs.dropWhile pyIsSpace with
  | nil => rfl
  | cons a rest =>
    have : rest.any (fun x => x = '\n') = false := by
      rw [List.any_eq_false]
      intro x hx
      simp only [decide_eq_true_eq]
      refine hn x (List.dropWhile_subset pyIsSpace ?_)
      rw [hdw]
      exact List.mem_cons_of_mem _ hx
    simp [this]

theorem step4L_subset : ∀ {cs : List Char}, ('\n' ∉ cs) → ∀ c ∈ step4L cs, c ∈ cs := by
  intro cs
  induction cs with
  | nil => intro _ c hc; simp only [step4L] at hc; cases hc
  | cons a as ih =>
    intro hn c hc
    simp only [step4L] at hc
    by_cases h4 : match4At (a :: as)
    · rw [if_pos h4] at hc
      rw [after4At_eq_nil (fun x hx hxe => hn (hxe ▸ hx))] at hc
      cases hc
    · rw [if_neg h4] at hc
      rcases List.mem_cons.mp hc with rfl | hc
      · exact List.mem_cons_self c as
      · exact List.mem_cons_of_mem _ (ih (fun hx => hn (List.mem_cons_of_mem _ hx)) c hc)

theorem noMatch4_step4L : ∀ {cs : List Char}, ('\n' ∉ cs) → noMatch4 (step4L cs) = true := by
  intro cs
  induction cs with
  | nil => intro _; rfl
  | cons a as ih =>
    intro hn
    have hnas : '\n' ∉ as := fun hx => hn (List.mem_cons_of_mem _ hx)
    simp only [step4L]
    by_cases h4 : match4At (a :: as)
    · rw [if_pos h4, after4At_eq_nil (fun x hx hxe => hn (hxe ▸ hx))]; rfl
    · rw [if_neg h4]
      have ihs := ih hnas
      rw [noMatch4, Bool.and_eq_true, Bool.not_eq_true']
      refine ⟨?_, ihs⟩
      by_cases hsp : pyIsSpace a
      · rw [match4At_cons_space hsp]
        exact noMatch4_first ihs
      · refine match4At_cons_nonspace (Bool.not_eq_true _ ▸ hsp) ?_
        exact head_ne_comma (Bool.not_eq_true _ ▸ hsp) hnas (Bool.not_eq_true _ ▸ h4)

theorem step4L_eq_of_noMatch4 : ∀ {cs : List Char}, noMatch4 cs = true → step4L cs = cs := by
  intro cs
  induction cs with
  | nil => intro _; rfl
  | cons a as ih =>
    intro h
    simp only [step4L]
    rw [if_neg ?_, ih (noMatch4_rest h)]
    rw [noMatch4_first h]
    exact Bool.false_ne_true

theorem lastNotSpace_nil : lastNotSpace [] := by
  intro x hx; cases hx

theorem lastNotSpace_stripRightL : ∀ (l : List Char), lastNotSpace (stripRightL l) := by
  intro l
  induction l with
  | nil => exact lastNotSpace_nil
  | cons a as ih =>
    simp only [stripRightL]
    by_cases h : (stripRightL as).isEmpty
    · rw [if_pos h]
      by_cases hs : pyIsSpace a
      · rw [if_pos hs]; exact lastNotSpace_nil
      · rw [if_neg hs]
        intro x hx
        simp only [List.getLast?_singleton, Option.some.injEq] at hx
        rw [← hx]
        exact Bool.not_eq_true _ ▸ hs
    · rw [if_neg h]
      intro x hx
      cases hr : stripRightL as with
      | nil => rw [hr] at h; exact absurd rfl h
      | cons b bs =>
        rw [hr, List.getLast?_cons_cons] at hx
        exact ih x (hr ▸ hx)

theorem stripRightL_eq_of_lastNotSpace : ∀ {l : List Char}, lastNotSpace l → stripRightL l = l := by
  intro l
  induction l with
  | nil => intro _; rfl
  | cons a as ih =>
    intro h
    simp only [stripRightL]
    cases has : as with
    | nil =>
      simp only [stripRightL, List.isEmpty_nil, if_true]
      have : pyIsSpace a = false := h a (by rw [has]; rfl)
      rw [this]; simp
    | cons b bs =>
      have hstep : stripRightL as = as := by
        refine ih ?_
        intro x hx
        refine h x ?_
        rw [has] at hx ⊢
        rw [List.getLast?_cons_cons]
        exact hx
      rw [← has, hstep, has]
      simp

theorem getLast?_dropWhile (p : Char → Bool) :
    ∀ (l : List Char), (l.dropWhile p).getLast? = l.getLast? ∨ l.dropWhile p = [] := by
  intro l
  induction l with
  | nil => exact Or.inr rfl
  | cons a as ih =>
    rw [List.dropWhile_cons]
    by_cases hp : p a
    · rw [if_pos hp]
      rcases ih with h | h
      · cases has : as with
        | nil => right; rfl
        | cons b bs =>
          left
          subst has
          rw [List.getLast?_cons_cons]
          exact h
      · exact Or.inr h
    · rw [if_neg hp]
      exact Or.inl rfl

theorem dropWhile_dropWhile (p : Char → Bool) (l : List Char) :
    (l.dropWhile p).dropWhile p = l.dropWhile p := by
  induction l with
  | nil => rfl
  | cons a as ih =>
    rw [List.dropWhile_cons]
    by_cases hp : p a
    · rw [if_pos hp]; exact ih
    · rw [if_neg hp, List.dropWhile_cons, if_neg hp]

theorem pyStripL_idem (l : List Char) : pyStripL (pyStripL l) = pyStripL l := by
  unfold pyStripL
  have h1 : lastNotSpace ((stripRightL l).dropWhile pyIsSpace) := by
    rcases getLast?_dropWhile pyIsSpace (stripRightL l) with h | h
    · intro x hx
      exact lastNotSpace_stripRightL l x (h ▸ hx)
    · rw [h]; exact lastNotSpace_nil
  rw [stripRightL_eq_of_lastNotSpace h1, dropWhile_dropWhile]

theorem noMatch4_dropWhile : ∀ {v : List Char}, ('\n' ∉ v) → noMatch4 v = true →
    noMatch4 (v.dropWhile pyIsSpace) = true := by
  intro v
  induction v with
  | nil => intro _ _; rfl
  | cons a as ih =>
    intro hn h
    rw [List.dropWhile_cons]
    by_cases hp : pyIsSpace a
    · rw [if_pos hp]
      exact ih (fun hx => hn (List.mem_cons_of_mem _ hx)) (noMatch4_rest h)
    · rw [if_neg hp]
      exact h

theorem noMatch4_stripRightL : ∀ {v : List Char}, ('\n' ∉ v) → noMatch4 v = true →
    noMatch4 (stripRightL v) = true := by
  intro v
  induction v with
  | nil => intro _ _; rfl
  | cons a as ih =>
    intro hn h
    have hnas : '\n' ∉ as := fun hx => hn (List.mem_cons_of_mem _ hx)
    have h4 : match4At (a :: as) = false := noMatch4_first h
    have ihs : noMatch4 (stripRightL as) = true := ih hnas (noMatch4_rest h)
    simp only [stripRightL]
    by_cases he : (stripRightL as).isEmpty
    · rw [if_pos he]
      by_cases hs : pyIsSpace a
      · rw [if_pos hs]; rfl
      · rw [if_neg hs]
        have hsp : pyIsSpace a = false := Bool.not_eq_true _ ▸ hs
        have hne : a ≠ ',' := head_ne_comma hsp hnas h4
        rw [noMatch4, match4At_cons_nonspace hsp hne]
        rfl
    · rw [if_neg he]
      rw [noMatch4, Bool.and_eq_true, Bool.not_eq_true']
      refine ⟨?_, ihs⟩
      by_cases hs : pyIsSpace a
      · rw [match4At_cons_space hs]
        exact noMatch4_first ihs
      · have hsp : pyIsSpace a = false := Bool.not_eq_true _ ▸ hs
        exact match4At_cons_nonspace hsp (head_ne_comma hsp hnas h4)

/-- C2, key fact: on strings without digits and newlines the whole pipeline
collapses to step 4 followed by `strip`, whose output has no further
pattern-4 match. -/
theorem cleanNameL_fix {w : List Char} (hd : noDigit w) (hm : noMatch4 w = true)
    (hs : pyStripL w = w) : cleanNameL w = w := by
  unfold cleanNameL
  rw [step1L_id hd, step2L_id hd, step3L_id hd, step4L_eq_of_noMatch4 hm, hs]

/-- C2, counterexample: the cleanup of
`OllamaClient.parse_recipe` (ollama_client.py lines 147-155) is not
idempotent.  On `"egg 2, fresh"` the comma clause is removed last, which
exposes the trailing `" 2"`; only a second application strips it:
one application gives `"egg 2"`, a second gives `"egg"`. -/
theorem claim2_cex :
    cleanupName (cleanupName "egg 2, fresh") ≠ cleanupName "egg 2, fresh" := by
  decide

/-- C2, amended: the ingredient-name cleanup (the four `re.sub` steps of
ollama_client.py lines 151-154 together with the surrounding `str.strip`
calls of lines 148 and 155) is idempotent on every ASCII string that
contains no decimal digit and no newline; in general a second application
can strip further, because removing a trailing comma clause or a unit token
can expose new trailing material for the earlier steps. -/
theorem claim2_main (s : String)
    (h : ∀ c ∈ s.data, c.toNat < 128 ∧ c.isDigit = false ∧ c ≠ '\n') :
    cleanupName (cleanupName s) = cleanupName s := by
  have hsub : ∀ c ∈ pyStripL s.data, c ∈ s.data := fun c hc => pyStripL_subset c hc
  have hd : noDigit (pyStripL s.data) := fun c hc => (h c (hsub c hc)).2.1
  have hn : '\n' ∉ pyStripL s.data := fun hc => (h _ (hsub _ hc)).2.2 rfl
  have e2 : cleanNameL (pyStripL s.data) = pyStripL (step4L (pyStripL s.data)) := by
    unfold cleanNameL
    rw [step1L_id hd, step2L_id hd, step3L_id hd]
  have hn4 : '\n' ∉ step4L (pyStripL s.data) :=
    fun hc => hn (step4L_subset hn _ hc)
  have hm4 : noMatch4 (step4L (pyStripL s.data)) = true := noMatch4_step4L hn
  have hsubw : ∀ c ∈ pyStripL (step4L (pyStripL s.data)), c ∈ s.data :=
    fun c hc => hsub c (step4L_subset hn c (pyStripL_subset c hc))
  have hdw : noDigit (pyStripL (step4L (pyStripL s.data))) :=
    fun c hc => (h c (hsubw c hc)).2.1
  have hmw : noMatch4 (pyStripL (step4L (pyStripL s.data))) = true := by
    unfold pyStripL
    refine noMatch4_dropWhile ?_ (noMatch4_stripRightL hn4 hm4)
    intro hc
    exact hn4 (stripRightL_subset _ hc)
  have hsw : pyStripL (pyStripL (step4L (pyStripL s.data))) = pyStripL (step4L (pyStripL s.data)) :=
    pyStripL_idem _
  show cleanupName ⟨cleanNameL (pyStripL s.data)⟩ = (⟨cleanNameL (pyStripL s.data)⟩ : String)
  rw [e2]
  show (⟨cleanNameL (pyStripL (pyStripL (step4L (pyStripL s.data))))⟩ : String) = _
  rw [hsw, cleanNameL_fix hdw hmw hsw]

/-- C2, witness for the amended theorem: a digit-free, newline-free ASCII
name on which the cleanup does act (it cuts the comma clause) and is then
idempotent. -/
theorem claim2_witness :
    (∀ c ∈ "olive oil, extra".data, c.toNat < 128 ∧ c.isDigit = false ∧ c ≠ '\n') ∧
      cleanupName (cleanupName "olive oil, extra") = cleanupName "olive oil, extra" :=
  ⟨by decide, claim2_main "olive oil, extra" (by decide)⟩

/-! ## Claims C3 and C4: the ingredient entries produced by parse_recipe -/

theorem processIng_quantity {ing out : Json} (h : processIng ing = some out) :
    dictGet out "quantity" = some (Json.str "1") := by
  unfold processIng at h
  cases hw : strWrap ing with
  | obj kvs =>
    rw [hw] at h
    dsimp only at h
    by_cases hname : ingName (Json.obj kvs) = "" ∨
        strLower (ingName (Json.obj kvs)) ∈ categoryHeaders
    · rw [if_pos hname] at h; cases h
    · rw [if_neg hname] at h
      rw [← Option.some.inj h]
      rfl
  | null => rw [hw] at h; cases h
  | bool b => rw [hw] at h; cases h
  | num q => rw [hw] at h; cases h
  | str s => rw [hw] at h; cases h
  | arr l => rw [hw] at h; cases h

theorem resultIngredients_nil_of_not_in {p : Json} (h : pyIn "ingredients" p = .ok false) :
    resultIngredients p = [] := by
  cases p with
  | obj kvs =>
    simp only [pyIn, Except.ok.injEq] at h
    have hfind : kvs.find? (fun kv => decide (kv.1 = "ingredients")) = none := by
      rw [List.find?_eq_none]
      intro kv hkv hd
      have hx : kvs.any (fun kv => decide (kv.1 = "ingredients")) = true :=
        List.any_eq_true.mpr ⟨kv, hkv, hd⟩
      rw [h] at hx
      cases hx
    unfold resultIngredients dictGet
    dsimp only
    rw [hfind]
    rfl
  | arr l => rfl
  | str s => rfl
  | null => cases h
  | bool b => cases h
  | num q => cases h

theorem find?_map_update (k : String) (v : Json) :
    ∀ (kvs : List (String × Json)), kvs.any (fun kv => kv.1 = k) = true →
      ((kvs.map (fun kv => if kv.1 = k then (k, v) else kv)).find?
        (fun kv => kv.1 = k)) = some (k, v) := by
  intro kvs
  induction kvs with
  | nil => intro h; cases h
  | cons kv rest ih =>
    intro h
    rw [List.map_cons]
    by_cases hk : kv.1 = k
    · rw [if_pos hk]
      rw [List.find?_cons_of_pos _ (by simp)]
    · rw [if_neg hk]
      rw [List.find?_cons_of_neg _ (by simp [hk])]
      refine ih ?_
      rw [List.any_cons] at h
      simpa [hk] using h

theorem postprocess_quantity {d out : Json} (h : postprocess d = .ok out) :
    ∀ e ∈ resultIngredients out, dictGet e "quantity" = some (Json.str "1") := by
  unfold postprocess at h
  cases h1 : fixRecipeName d with
  | error err => rw [h1] at h; cases h
  | ok p1 =>
    rw [h1] at h
    dsimp only at h
    cases h2 : pyIn "ingredients" p1 with
    | error err => rw [h2] at h; cases h
    | ok b =>
      rw [h2] at h
      cases b with
      | false =>
        have hout : p1 = out := Except.ok.inj h
        rw [← hout, resultIngredients_nil_of_not_in h2]
        intro e he; cases he
      | true =>
        dsimp only at h
        cases h3 : pySubscript p1 "ingredients" with
        | error err => rw [h3] at h; cases h
        | ok ingVal =>
          rw [h3] at h
          dsimp only at h
          cases h4 : pyIterate ingVal with
          | error err => rw [h4] at h; cases h
          | ok items =>
            rw [h4] at h
            dsimp only at h
            cases h5 : flattenIngredients items with
            | error err => rw [h5] at h; cases h
            | ok flat =>
              rw [h5] at h
              dsimp only at h
              cases p1 with
              | obj kvs =>
                have hany : kvs.any (fun kv => kv.1 = "ingredients") = true := by
                  simpa [pyIn] using h2
                have hout : Json.obj (kvs.map (fun kv =>
                    if kv.1 = "ingredients" then
                      ("ingredients", Json.arr (flat.filterMap processIng)) else kv)) = out :=
                  Except.ok.inj h
                intro e he
                rw [← hout] at he
                unfold resultIngredients dictGet at he
                dsimp only at he
                rw [find?_map_update "ingredients" (Json.arr (flat.filterMap processIng)) kvs hany] at he
                rcases List.mem_filterMap.mp he with ⟨ing, _, hpi⟩
                exact processIng_quantity hpi
              | null => cases h
              | bool bb => cases h
              | num q => cases h
              | str s => cases h
              | arr l => cases h

set_option maxRecDepth 4000 in
/-- C3, counterexample: `parse_recipe` succeeds on `qtyTwoResp` through the
```` ```json ```` fallback (ollama_client.py lines 191-199) and returns the
parsed value verbatim, with an ingredient whose quantity is `"2"`, not
`"1"`: the claim that every success path normalizes quantities fails. -/
theorem claim3_cex :
    parse_recipe (some qtyTwoResp) = .ok (some qtyTwoRecipe) ∧
      ¬ (∀ e ∈ resultIngredients qtyTwoRecipe, dictGet e "quantity" = some (Json.str "1")) := by
  constructor
  · rfl
  · intro hall
    have h1 := hall (Json.obj [("name", Json.str "milk"), ("quantity", Json.str "2")])
      (by rw [show resultIngredients qtyTwoRecipe =
        [Json.obj [("name", Json.str "milk"), ("quantity", Json.str "2")]] from rfl]
          exact List.mem_singleton_self _)
    have h2 : (some (Json.str "2") : Option Json) = some (Json.str "1") := by
      rw [← h1]; rfl
    have h3 := Option.some.inj h2
    injection h3 with h4
    exact absurd h4 (by decide)

/-- C3, amended: on the direct-parse success path (ollama_client.py lines
118-186: `json.loads` succeeds on the raw response), every entry of the
returned ingredients list has quantity exactly the string `"1"`; the fence
fallback paths return the extracted JSON verbatim and are exempt. -/
theorem claim3_main (r : String) (d out : Json) (hld : json_loads r = some d)
    (hpr : parse_recipe (some r) = .ok (some out)) :
    ∀ e ∈ resultIngredients out, dictGet e "quantity" = some (Json.str "1") := by
  have hne : r ≠ "" := by
    intro he
    rw [he] at hld
    rw [show json_loads "" = none from rfl] at hld
    cases hld
  unfold parse_recipe at hpr
  dsimp only at hpr
  rw [if_neg hne, hld] at hpr
  dsimp only at hpr
  cases hp : postprocess d with
  | error err => rw [hp] at hpr; cases hpr
  | ok v =>
    rw [hp] at hpr
    have hv : v = out := by
      have := hpr
      simp only [Except.map] at this
      exact Option.some.inj (Except.ok.inj this)
    exact hv ▸ postprocess_quantity hp

set_option maxRecDepth 4000 in
/-- C3, witness: a direct-parse response whose raw quantity is `"3"` and
whose name carries a unit token; the returned entry has the name cleaned
and quantity forced to `"1"`. -/
theorem claim3_witness :
    json_loads "\x7b\"ingredients\": [\x7b\"name\": \"Milk 200ml\", \"quantity\": \"3\"\x7d]\x7d" =
      some (Json.obj [("ingredients", Json.arr
        [Json.obj [("name", Json.str "Milk 200ml"), ("quantity", Json.str "3")]])]) ∧
    parse_recipe (some "\x7b\"ingredients\": [\x7b\"name\": \"Milk 200ml\", \"quantity\": \"3\"\x7d]\x7d") =
      .ok (some (Json.obj [("ingredients", Json.arr
        [Json.obj [("name", Json.str "Milk"), ("quantity", Json.str "1"),
                   ("isSeasoning", Json.bool false)]])])) ∧
    ∀ e ∈ resultIngredients (Json.obj [("ingredients", Json.arr
        [Json.obj [("name", Json.str "Milk"), ("quantity", Json.str "1"),
                   ("isSeasoning", Json.bool false)]])]),
      dictGet e "quantity" = some (Json.str "1") :=
  ⟨rfl, rfl,
    claim3_main "\x7b\"ingredients\": [\x7b\"name\": \"Milk 200ml\", \"quantity\": \"3\"\x7d]\x7d"
      (Json.obj [("ingredients", Json.arr
        [Json.obj [("name", Json.str "Milk 200ml"), ("quantity", Json.str "3")]])])
      (Json.obj [("ingredients", Json.arr
        [Json.obj [("name", Json.str "Milk"), ("quantity", Json.str "1"),
                   ("isSeasoning", Json.bool false)]])])
      rfl rfl⟩

/-! ## Claim C4: the seasoning classification -/

/-- C4: the seasoning flag attached to a processed ingredient entry is a
pure function of the entry (the model is deterministic by construction),
and it is `true` exactly when the entry's raw `isSeasoning` field is
truthy — for strings, one of `'true'`, `'1'`, `'yes'` — or some keyword of
the fixed list occurs as a substring of the lower-cased cleaned name
(ollama_client.py lines 163-181). -/
theorem claim4_main (ing out : Json) (h : processIng ing = some out) :
    dictGet out "name" = some (Json.str (ingName (strWrap ing))) ∧
      (dictGet out "isSeasoning" = some (Json.bool true) ↔
        truthySeasField (dictGet (strWrap ing) "isSeasoning") ∨
        ∃ kw ∈ seasoningKeywords, hasSubstr (strLower (ingName (strWrap ing))) kw = true) := by
  unfold processIng at h
  cases hw : strWrap ing with
  | obj kvs =>
    rw [hw] at h
    dsimp only at h
    by_cases hname : ingName (Json.obj kvs) = "" ∨
        strLower (ingName (Json.obj kvs)) ∈ categoryHeaders
    · rw [if_pos hname] at h; cases h
    · rw [if_neg hname] at h
      rw [← Option.some.inj h]
      constructor
      · rfl
      · have hget : dictGet (Json.obj
            [("name", Json.str (ingName (Json.obj kvs))), ("quantity", Json.str "1"),
             ("isSeasoning", Json.bool (seasoningFlag (dictGet (Json.obj kvs) "isSeasoning")
               (ingName (Json.obj kvs))))]) "isSeasoning" =
            some (Json.bool (seasoningFlag (dictGet (Json.obj kvs) "isSeasoning")
              (ingName (Json.obj kvs)))) := rfl
        rw [hget]
        unfold seasoningFlag
        by_cases hany : seasoningKeywords.any
            (fun kw => hasSubstr (strLower (ingName (Json.obj kvs))) kw) = true
        · rw [if_pos hany]
          constructor
          · intro _
            right
            rcases List.any_eq_true.mp hany with ⟨kw, hkw, hsub⟩
            exact ⟨kw, hkw, hsub⟩
          · intro _; rfl
        · rw [if_neg hany]
          constructor
          · intro hbase
            left
            have hb := Option.some.inj hbase
            injection hb with hb'
            unfold truthySeasField
            cases hfield : (dictGet (Json.obj kvs) "isSeasoning").getD (Json.bool false) with
            | str s =>
              rw [hfield] at hb'
              exact of_decide_eq_true hb'
            | null => rw [hfield] at hb'; cases hb'
            | bool b => rw [hfield] at hb'; exact hb'
            | num q => rw [hfield] at hb'; exact hb'
            | arr l => rw [hfield] at hb'; exact hb'
            | obj o => rw [hfield] at hb'; exact hb'
          · intro hd
            rcases hd with ht | ⟨kw, hkw, hsub⟩
            · unfold truthySeasField at ht
              congr 1
              congr 1
              cases hfield : (dictGet (Json.obj kvs) "isSeasoning").getD (Json.bool false) with
              | str s => rw [hfield] at ht; exact decide_eq_true ht
              | null => rw [hfield] at ht; cases ht
              | bool b => rw [hfield] at ht; exact ht
              | num q => rw [hfield] at ht; exact ht
              | arr l => rw [hfield] at ht; exact ht
              | obj o => rw [hfield] at ht; exact ht
            · exact absurd (List.any_eq_true.mpr ⟨kw, hkw, hsub⟩) hany
  | null => rw [hw] at h; cases h
  | bool b => rw [hw] at h; cases h
  | num q => rw [hw] at h; cases h
  | str s => rw [hw] at h; cases h
  | arr l => rw [hw] at h; cases h

/-- C4, witness: an entry whose raw flag is the string `"no"` (not truthy)
but whose cleaned name `"Black Pepper"` contains the keyword `"pepper"`,
so the computed flag is true by keyword detection. -/
theorem claim4_witness :
    processIng (Json.obj [("name", Json.str "Black Pepper 2g"),
        ("isSeasoning", Json.str "no")]) =
      some (Json.obj [("name", Json.str "Black Pepper"), ("quantity", Json.str "1"),
        ("isSeasoning", Json.bool true)]) ∧
      (dictGet (Json.obj [("name", Json.str "Black Pepper"), ("quantity", Json.str "1"),
          ("isSeasoning", Json.bool true)]) "name" =
        some (Json.str (ingName (strWrap (Json.obj [("name", Json.str "Black Pepper 2g"),
          ("isSeasoning", Json.str "no")])))) ∧
        (dictGet (Json.obj [("name", Json.str "Black Pepper"), ("quantity", Json.str "1"),
            ("isSeasoning", Json.bool true)]) "isSeasoning" = some (Json.bool true) ↔
          truthySeasField (dictGet (strWrap (Json.obj [("name", Json.str "Black Pepper 2g"),
            ("isSeasoning", Json.str "no")])) "isSeasoning") ∨
          ∃ kw ∈ seasoningKeywords,
            hasSubstr (strLower (ingName (strWrap (Json.obj [("name", Json.str "Black Pepper 2g"),
              ("isSeasoning", Json.str "no")])))) kw = true)) :=
  ⟨rfl, claim4_main _ _ rfl⟩

/-! ## Claims C7 and C10: the fallback cascade of parse_recipe -/

/-- C7, counterexample: on `twoFenceResp` direct parsing fails, the
described third attempt (generic-fence extraction) would parse
successfully, yet `parse_recipe` returns `None`: it is not the case that
the generic attempt is made whenever the ```` ```json ```` attempt fails. -/
theorem claim7_cex :
    json_loads twoFenceResp = none ∧
      json_loads (genFenceText twoFenceResp) =
        some (Json.obj [("a", Json.num ⟨1, 1, Nat.one_pos⟩)]) ∧
      parse_recipe (some twoFenceResp) = .ok none :=
  ⟨rfl, rfl, rfl⟩

/-- C7, amended: `parse_recipe` performs at most three sequential attempts
— direct parse, ```` ```json ````-fence extraction, generic ```` ``` ````-fence
extraction — where the first attempt that succeeds determines the returned
value; but the generic-fence attempt is made only when the response
contains no ```` ```json ```` marker at all (the `elif` of line 202): when the
marker is present and its extraction fails, the function returns `None`
without trying the generic fence; and if every attempted extraction fails
it returns `None`. -/
theorem claim7_main (r : String) (hr : r ≠ "") :
    (∀ d, json_loads r = some d → parse_recipe (some r) = (postprocess d).map some) ∧
      (json_loads r = none → hasSubstr r "```json" = true →
        ∀ d, json_loads (jsonFenceText r) = some d → parse_recipe (some r) = .ok (some d)) ∧
      (json_loads r = none → hasSubstr r "```json" = true →
        json_loads (jsonFenceText r) = none → parse_recipe (some r) = .ok none) ∧
      (json_loads r = none → hasSubstr r "```json" = false → hasSubstr r "```" = true →
        ∀ d, json_loads (genFenceText r) = some d → parse_recipe (some r) = .ok (some d)) ∧
      (json_loads r = none → hasSubstr r "```json" = false → hasSubstr r "```" = true →
        json_loads (genFenceText r) = none → parse_recipe (some r) = .ok none) ∧
      (json_loads r = none → hasSubstr r "```json" = false → hasSubstr r "```" = false →
        parse_recipe (some r) = .ok none) := by
  refine ⟨?_, ?_, ?_, ?_, ?_, ?_⟩
  · intro d hd
    unfold parse_recipe
    dsimp only
    rw [if_neg hr, hd]
  · intro hn hj d hd
    unfold parse_recipe
    dsimp only
    rw [if_neg hr, hn]
    dsimp only
    rw [if_pos hj, hd]
  · intro hn hj hd
    unfold parse_recipe
    dsimp only
    rw [if_neg hr, hn]
    dsimp only
    rw [if_pos hj, hd]
  · intro hn hj hg d hd
    unfold parse_recipe
    dsimp only
    rw [if_neg hr, hn]
    dsimp only
    rw [if_neg (by rw [hj]; exact Bool.false_ne_true), if_pos hg, hd]
  · intro hn hj hg hd
    unfold parse_recipe
    dsimp only
    rw [if_neg hr, hn]
    dsimp only
    rw [if_neg (by rw [hj]; exact Bool.false_ne_true), if_pos hg, hd]
  · intro hn hj hg
    unfold parse_recipe
    dsimp only
    rw [if_neg hr, hn]
    dsimp only
    rw [if_neg (by rw [hj]; exact Bool.false_ne_true),
        if_neg (by rw [hg]; exact Bool.false_ne_true)]

/-- C7, witness: a response that fails direct parsing and recovers through
the ```` ```json ```` fence. -/
theorem claim7_witness :
    ("hello ```json\n\x7b\"b\": 2\x7d\n``` bye" ≠ "") ∧
      json_loads "hello ```json\n\x7b\"b\": 2\x7d\n``` bye" = none ∧
      hasSubstr "hello ```json\n\x7b\"b\": 2\x7d\n``` bye" "```json" = true ∧
      json_loads (jsonFenceText "hello ```json\n\x7b\"b\": 2\x7d\n``` bye") =
        some (Json.obj [("b", Json.num ⟨2, 1, Nat.one_pos⟩)]) ∧
      parse_recipe (some "hello ```json\n\x7b\"b\": 2\x7d\n``` bye") =
        .ok (some (Json.obj [("b", Json.num ⟨2, 1, Nat.one_pos⟩)])) :=
  ⟨by decide, rfl, rfl, rfl,
    (claim7_main "hello ```json\n\x7b\"b\": 2\x7d\n``` bye" (by decide)).2.1 rfl rfl
      (Json.obj [("b", Json.num ⟨2, 1, Nat.one_pos⟩)]) rfl⟩

/-- C10: when `parse_recipe` succeeds through a fence-extraction fallback
(ollama_client.py lines 191-212), the parsed dictionary is returned
verbatim — none of the direct-path post-processing (name cleanup, quantity
normalization, seasoning detection, flattening, header dropping) is
applied. -/
theorem claim10_main (r : String) (hr : r ≠ "") (hl : json_loads r = none) :
    (hasSubstr r "```json" = true → ∀ d, json_loads (jsonFenceText r) = some d →
      parse_recipe (some r) = .ok (some d)) ∧
      (hasSubstr r "```json" = false → hasSubstr r "```" = true →
        ∀ d, json_loads (genFenceText r) = some d → parse_recipe (some r) = .ok (some d)) := by
  constructor
  · intro hj d hd
    unfold parse_recipe
    dsimp only
    rw [if_neg hr, hl]
    dsimp only
    rw [if_pos hj, hd]
  · intro hj hg d hd
    unfold parse_recipe
    dsimp only
    rw [if_neg hr, hl]
    dsimp only
    rw [if_neg (by rw [hj]; exact Bool.false_ne_true), if_pos hg, hd]

set_option maxRecDepth 8000 in
/-- C10, witness: a fenced recipe whose ingredient entries would be changed
by every post-processing step (unit token in the name, quantity `"7"`, a
seasoning name left unflagged, a category header left in place) comes back
untouched. -/
theorem claim10_witness :
    ("```json\n\x7b\"ingredients\": [\x7b\"name\": \"Pork Belly 500g\", \"quantity\": \"7\"\x7d, \x7b\"name\": \"Spices\"\x7d]\x7d\n```" ≠ "") ∧
      json_loads "```json\n\x7b\"ingredients\": [\x7b\"name\": \"Pork Belly 500g\", \"quantity\": \"7\"\x7d, \x7b\"name\": \"Spices\"\x7d]\x7d\n```" = none ∧
      hasSubstr "```json\n\x7b\"ingredients\": [\x7b\"name\": \"Pork Belly 500g\", \"quantity\": \"7\"\x7d, \x7b\"name\": \"Spices\"\x7d]\x7d\n```" "```json" = true ∧
      json_loads (jsonFenceText "```json\n\x7b\"ingredients\": [\x7b\"name\": \"Pork Belly 500g\", \"quantity\": \"7\"\x7d, \x7b\"name\": \"Spices\"\x7d]\x7d\n```") =
        some (Json.obj [("ingredients", Json.arr
          [Json.obj [("name", Json.str "Pork Belly 500g"), ("quantity", Json.str "7")],
           Json.obj [("name", Json.str "Spices")]])]) ∧
      parse_recipe (some "```json\n\x7b\"ingredients\": [\x7b\"name\": \"Pork Belly 500g\", \"quantity\": \"7\"\x7d, \x7b\"name\": \"Spices\"\x7d]\x7d\n```") =
        .ok (some (Json.obj [("ingredients", Json.arr
          [Json.obj [("name", Json.str "Pork Belly 500g"), ("quantity", Json.str "7")],
           Json.obj [("name", Json.str "Spices")]])])) :=
  ⟨by decide, rfl, rfl, rfl,
    (claim10_main "```json\n\x7b\"ingredients\": [\x7b\"name\": \"Pork Belly 500g\", \"quantity\": \"7\"\x7d, \x7b\"name\": \"Spices\"\x7d]\x7d\n```"
      (by decide) rfl).1 rfl
      (Json.obj [("ingredients", Json.arr
        [Json.obj [("name", Json.str "Pork Belly 500g"), ("quantity", Json.str "7")],
         Json.obj [("name", Json.str "Spices")]])]) rfl⟩

/-! ## Claim C1: recovery from fenced code blocks -/

theorem findSubAux_eq (pat : List Char) :
    ∀ (l : List Char) (i k : Nat), occursAt l pat k = true →
      (∀ j < k, occursAt l pat j = false) → findSubAux pat l i = some (i + k) := by
  intro l
  induction l with
  | nil =>
    intro i k hk hmin
    unfold occursAt at hk
    rw [List.drop_nil] at hk
    cases hp : pat with
    | nil =>
      cases k with
      | zero => simp [findSubAux]
      | succ k' =>
        have h0 := hmin 0 (Nat.succ_pos _)
        unfold occursAt at h0
        rw [List.drop_nil, hp] at h0
        simp [List.isPrefixOf] at h0
    | cons p ps =>
      rw [hp] at hk
      simp [List.isPrefixOf] at hk
  | cons c cs ih =>
    intro i k hk hmin
    cases k with
    | zero =>
      unfold occursAt at hk
      rw [List.drop_zero] at hk
      unfold findSubAux
      rw [if_pos hk, Nat.add_zero]
    | succ k' =>
      have h0 : occursAt (c :: cs) pat 0 = false := hmin 0 (Nat.succ_pos _)
      unfold occursAt at h0
      rw [List.drop_zero] at h0
      unfold findSubAux
      rw [if_neg (by rw [h0]; exact Bool.false_ne_true)]
      have hk' : occursAt cs pat k' = true := by
        unfold occursAt at hk ⊢
        rw [List.drop_succ_cons] at hk
        exact hk
      have hmin' : ∀ j < k', occursAt cs pat j = false := by
        intro j hj
        have := hmin (j + 1) (Nat.succ_lt_succ hj)
        unfold occursAt at this ⊢
        rw [List.drop_succ_cons] at this
        exact this
      rw [ih (i + 1) k' hk' hmin']
      congr 1
      omega

theorem pyFindFrom_eq {s pat : String} {start k : Nat}
    (hk : occursAt (s.data.drop start) pat.data k = true)
    (hmin : ∀ j < k, occursAt (s.data.drop start) pat.data j = false) :
    pyFindFrom s pat start = some (start + k) := by
  unfold pyFindFrom
  rw [findSubAux_eq pat.data (s.data.drop start) 0 k hk hmin]
  show some (0 + k + start) = some (start + k)
  congr 1
  omega

theorem isPrefixOf_append_self (l rest : List Char) : l.isPrefixOf (l ++ rest) = true := by
  rw [List.isPrefixOf_iff_prefix]
  exact List.prefix_append l rest

/-- The slice the fence-extraction code computes, when the text is the
concatenation `pre ++ m ++ inner ++ "```" ++ post`, the marker `m` does not
occur before `pre.length`, and no premature closing fence occurs inside
`inner` (including straddling occurrences): the marker is found at
`pre.length`, the closing fence right after `inner`, and the slice is
exactly `inner`. -/
theorem fenceExtract (m pre inner post : String)
    (hmin : ∀ j < pre.length, occursAt (pre ++ m ++ inner ++ "```" ++ post).data m.data j = false)
    (hfence : ∀ j < inner.length,
      occursAt (inner.data ++ "```".data ++ post.data) "```".data j = false) :
    pyFindFrom (pre ++ m ++ inner ++ "```" ++ post) m 0 = some pre.length ∧
      pyFindFrom (pre ++ m ++ inner ++ "```" ++ post) "```" (pre.length + m.length) =
        some (pre.length + m.length + inner.length) ∧
      pySlice (pre ++ m ++ inner ++ "```" ++ post) (pre.length + m.length)
        (pre.length + m.length + inner.length) = inner := by
  have hdata : (pre ++ m ++ inner ++ "```" ++ post).data =
      pre.data ++ (m.data ++ (inner.data ++ ("```".data ++ post.data))) := by
    simp [List.append_assoc]
  have hdrop0 : (pre ++ m ++ inner ++ "```" ++ post).data.drop pre.length =
      m.data ++ (inner.data ++ ("```".data ++ post.data)) := by
    rw [hdata]
    exact List.drop_left' rfl
  have hdrop1 : (pre ++ m ++ inner ++ "```" ++ post).data.drop (pre.length + m.length) =
      inner.data ++ ("```".data ++ post.data) := by
    rw [hdata, ← List.append_assoc]
    refine List.drop_left' ?_
    rw [List.length_append]
    rfl
  have hinnerdrop : (inner.data ++ ("```".data ++ post.data)).drop inner.length =
      "```".data ++ post.data :=
    List.drop_left' rfl
  refine ⟨?_, ?_, ?_⟩
  · have h0 := @pyFindFrom_eq (pre ++ m ++ inner ++ "```" ++ post) m 0 pre.length ?_ ?_
    · rw [h0, Nat.zero_add]
    · unfold occursAt
      rw [List.drop_zero, hdrop0]
      exact isPrefixOf_append_self _ _
    · intro j hj
      have := hmin j hj
      unfold occursAt at this ⊢
      rw [List.drop_zero]
      exact this
  · refine pyFindFrom_eq ?_ ?_
    · unfold occursAt
      rw [hdrop1, hinnerdrop]
      exact isPrefixOf_append_self _ _
    · intro j hj
      have := hfence j hj
      unfold occursAt at this ⊢
      rw [hdrop1, ← List.append_assoc]
      exact this
  · unfold pySlice
    have harith : pre.length + m.length + inner.length - (pre.length + m.length) =
        inner.length := by omega
    rw [harith, hdrop1]
    rw [@List.take_left' Char inner.data ("```".data ++ post.data) inner.length rfl]

/-- C1, counterexample: this response fails direct parsing and contains a
generic fenced block with valid JSON, yet `parse_recipe` returns `None`,
because the ```` ```json ```` marker also present makes the code extract the
(broken) text after that marker instead.  Recovery does not succeed
whenever some valid fenced block exists. -/
theorem claim1_cex :
    json_loads "```json\n\x7boops\n```\n```\n\x7b\"a\": 1\x7d\n```" = none ∧
      HasValidFencedBlock "```json\n\x7boops\n```\n```\n\x7b\"a\": 1\x7d\n```" ∧
      parse_recipe (some "```json\n\x7boops\n```\n```\n\x7b\"a\": 1\x7d\n```") = .ok none :=
  ⟨rfl,
    ⟨"```json\n\x7boops\n```\n", "\n\x7b\"a\": 1\x7d\n", "", Or.inr (by decide), rfl, rfl⟩,
    rfl⟩

/-- C1, amended: recovery succeeds for the block the code selects, not for
an arbitrary valid block.  When direct parsing fails, `parse_recipe`
extracts the text after the first ```` ```json ```` marker (or, only when no
```` ```json ```` marker occurs anywhere, after the first generic ```` ``` ````)
up to the next closing fence, and returns the parsed dictionary whenever
that text parses as JSON.  The occurrence hypotheses pin the decomposition
to those first markers (including straddling occurrences). -/
theorem claim1_main :
    (∀ (pre inner post : String) (d : Json),
      json_loads (pre ++ "```json" ++ inner ++ "```" ++ post) = none →
      (∀ j < pre.length,
        occursAt (pre ++ "```json" ++ inner ++ "```" ++ post).data "```json".data j = false) →
      (∀ j < inner.length,
        occursAt (inner.data ++ "```".data ++ post.data) "```".data j = false) →
      json_loads (pyStrip inner) = some d →
      parse_recipe (some (pre ++ "```json" ++ inner ++ "```" ++ post)) = .ok (some d)) ∧
    (∀ (pre inner post : String) (d : Json),
      json_loads (pre ++ "```" ++ inner ++ "```" ++ post) = none →
      hasSubstr (pre ++ "```" ++ inner ++ "```" ++ post) "```json" = false →
      (∀ j < pre.length,
        occursAt (pre ++ "```" ++ inner ++ "```" ++ post).data "```".data j = false) →
      (∀ j < inner.length,
        occursAt (inner.data ++ "```".data ++ post.data) "```".data j = false) →
      json_loads (pyStrip inner) = some d →
      parse_recipe (some (pre ++ "```" ++ inner ++ "```" ++ post)) = .ok (some d)) := by
  constructor
  · intro pre inner post d hld hmin hfence hok
    have hne : (pre ++ "```json" ++ inner ++ "```" ++ post) ≠ "" := by
      intro he
      have hd := congrArg String.data he
      simp [List.append_assoc] at hd
    obtain ⟨hf0, hf1, hf2⟩ := fenceExtract "```json" pre inner post hmin hfence
    have hlen7 : "```json".length = 7 := rfl
    rw [hlen7] at hf1 hf2
    have hsub : hasSubstr (pre ++ "```json" ++ inner ++ "```" ++ post) "```json" = true := by
      unfold hasSubstr
      rw [hf0]
      rfl
    have htext : jsonFenceText (pre ++ "```json" ++ inner ++ "```" ++ post) = pyStrip inner := by
      unfold jsonFenceText sliceToFence
      rw [hf0]
      show pyStrip (match pyFindFrom (pre ++ "```json" ++ inner ++ "```" ++ post) "```"
        (pre.length + 7) with
        | some e => pySlice (pre ++ "```json" ++ inner ++ "```" ++ post) (pre.length + 7) e
        | none => pySlice (pre ++ "```json" ++ inner ++ "```" ++ post) (pre.length + 7)
            ((pre ++ "```json" ++ inner ++ "```" ++ post).length - 1)) = pyStrip inner
      rw [hf1]
      dsimp only
      rw [hf2]
    unfold parse_recipe
    dsimp only
    rw [if_neg hne, hld]
    dsimp only
    rw [if_pos hsub, htext, hok]
  · intro pre inner post d hld hnj hmin hfence hok
    have hne : (pre ++ "```" ++ inner ++ "```" ++ post) ≠ "" := by
      intro he
      have hd := congrArg String.data he
      simp [List.append_assoc] at hd
    obtain ⟨hf0, hf1, hf2⟩ := fenceExtract "```" pre inner post hmin hfence
    have hlen3 : "```".length = 3 := rfl
    rw [hlen3] at hf1 hf2
    have hsub : hasSubstr (pre ++ "```" ++ inner ++ "```" ++ post) "```" = true := by
      unfold hasSubstr
      rw [hf0]
      rfl
    have htext : genFenceText (pre ++ "```" ++ inner ++ "```" ++ post) = pyStrip inner := by
      unfold genFenceText sliceToFence
      rw [hf0]
      show pyStrip (match pyFindFrom (pre ++ "```" ++ inner ++ "```" ++ post) "```"
        (pre.length + 3) with
        | some e => pySlice (pre ++ "```" ++ inner ++ "```" ++ post) (pre.length + 3) e
        | none => pySlice (pre ++ "```" ++ inner ++ "```" ++ post) (pre.length + 3)
            ((pre ++ "```" ++ inner ++ "```" ++ post).length - 1)) = pyStrip inner
      rw [hf1]
      dsimp only
      rw [hf2]
    unfold parse_recipe
    dsimp only
    rw [if_neg hne, hld]
    dsimp only
    rw [if_neg (by rw [hnj]; exact Bool.false_ne_true), if_pos hsub, htext, hok]

/-- C1, witness: direct parsing fails on the chatter around the block; the
```` ```json ```` fence is the first marker and its stripped inner text parses,
so the parsed dictionary is returned. -/
theorem claim1_witness :
    json_loads ("Sure:\n" ++ "```json" ++ "\n\x7b\"name\": \"Tea\"\x7d\n" ++ "```" ++ "\nBye") = none ∧
      (∀ j < "Sure:\n".length,
        occursAt ("Sure:\n" ++ "```json" ++ "\n\x7b\"name\": \"Tea\"\x7d\n" ++ "```" ++ "\nBye").data
          "```json".data j = false) ∧
      (∀ j < "\n\x7b\"name\": \"Tea\"\x7d\n".length,
        occursAt ("\n\x7b\"name\": \"Tea\"\x7d\n".data ++ "```".data ++ "\nBye".data)
          "```".data j = false) ∧
      json_loads (pyStrip "\n\x7b\"name\": \"Tea\"\x7d\n") =
        some (Json.obj [("name", Json.str "Tea")]) ∧
      parse_recipe (some ("Sure:\n" ++ "```json" ++ "\n\x7b\"name\": \"Tea\"\x7d\n" ++ "```" ++ "\nBye")) =
        .ok (some (Json.obj [("name", Json.str "Tea")])) :=
  ⟨rfl, by decide, by decide, rfl,
    claim1_main.1 "Sure:\n" "\n\x7b\"name\": \"Tea\"\x7d\n" "\nBye"
      (Json.obj [("name", Json.str "Tea")]) rfl (by decide) (by decide) rfl⟩

/-! ## Claims C5, C6, C8, C9: generate_substitution_suggestions -/

theorem PyFloat.toRat_den_pos (a : PyFloat) : (0 : ℚ) < (a.den : ℚ) := by
  exact_mod_cast a.dpos

theorem PyFloat.lt_iff (a b : PyFloat) : PyFloat.lt a b = true ↔ a.toRat < b.toRat := by
  unfold PyFloat.lt PyFloat.toRat
  rw [div_lt_div_iff₀ a.toRat_den_pos b.toRat_den_pos]
  rw [decide_eq_true_iff]
  constructor
  · intro h; exact_mod_cast h
  · intro h; exact_mod_cast h

theorem PyFloat.ofInt_toRat (n : Int) : (PyFloat.ofInt n).toRat = (n : ℚ) := by
  unfold PyFloat.ofInt PyFloat.toRat
  norm_num

theorem clamp01_bounds (c : PyFloat) :
    0 ≤ (clamp01 c).toRat ∧ (clamp01 c).toRat ≤ 1 := by
  unfold clamp01
  by_cases h1 : PyFloat.lt c (PyFloat.ofInt 1) = true
  · rw [if_pos h1]
    have hc1 : c.toRat < 1 := by
      have := (PyFloat.lt_iff c (PyFloat.ofInt 1)).mp h1
      rwa [PyFloat.ofInt_toRat] at this
    by_cases h0 : PyFloat.lt (PyFloat.ofInt 0) c = true
    · rw [if_pos h0]
      have hc0 : (0 : ℚ) < c.toRat := by
        have := (PyFloat.lt_iff (PyFloat.ofInt 0) c).mp h0
        rwa [PyFloat.ofInt_toRat] at this
      exact ⟨le_of_lt hc0, le_of_lt hc1⟩
    · rw [if_neg h0, PyFloat.ofInt_toRat]
      norm_num
  · rw [if_neg h1]
    by_cases h0 : PyFloat.lt (PyFloat.ofInt 0) (PyFloat.ofInt 1) = true
    · rw [if_pos h0, PyFloat.ofInt_toRat]
      norm_num
    · rw [if_neg h0, PyFloat.ofInt_toRat]
      norm_num

theorem roundHalfEvenInt_bounds {n d : Int} (hd : 0 < d) (hn0 : 0 ≤ n)
    (hnd : n ≤ 100 * d) : 0 ≤ roundHalfEvenInt n d ∧ roundHalfEvenInt n d ≤ 100 := by
  have hf0 : 0 ≤ n / d := Int.ediv_nonneg hn0 (le_of_lt hd)
  have hf100 : n / d ≤ 100 := by
    calc n / d ≤ (100 * d) / d := Int.ediv_le_ediv hd hnd
    _ = 100 := Int.mul_ediv_cancel 100 (ne_of_gt hd)
  have hrem : n - n / d * d = n % d := by
    rw [Int.emod_def]
    ring
  have hr0 : 0 ≤ n - n / d * d := by
    rw [hrem]
    exact Int.emod_nonneg n (ne_of_gt hd)
  have hrd : n - n / d * d < d := by
    rw [hrem]
    exact Int.emod_lt_of_pos n hd
  unfold roundHalfEvenInt
  generalize hgen : n / d = k at *
  by_cases hk100 : k = 100
  · subst hk100
    have hr00 : n - 100 * d ≤ 0 := by omega
    rw [if_pos (by omega)]
    omega
  · by_cases hb1 : 2 * (n - k * d) < d
    · rw [if_pos hb1]
      omega
    · rw [if_neg hb1]
      by_cases hb2 : d < 2 * (n - k * d)
      · rw [if_pos hb2]
        omega
      · rw [if_neg hb2]
        by_cases hb3 : k % 2 = 0
        · rw [if_pos hb3]
          omega
        · rw [if_neg hb3]
          omega

theorem pyRound2_bounds {c : PyFloat} (h0 : 0 ≤ c.toRat) (h1 : c.toRat ≤ 1) :
    0 ≤ (pyRound2 c).toRat ∧ (pyRound2 c).toRat ≤ 1 := by
  have hdq : (0 : ℚ) < (c.den : ℚ) := c.toRat_den_pos
  have hd : (0 : Int) < (c.den : Int) := by exact_mod_cast c.dpos
  have hnum0 : (0 : Int) ≤ c.num := by
    have hq : (0 : ℚ) ≤ (c.num : ℚ) := by
      by_contra hq
      push_neg at hq
      have : c.toRat < 0 := by
        unfold PyFloat.toRat
        exact div_neg_of_neg_of_pos hq hdq
      exact absurd h0 (not_le.mpr this)
    exact_mod_cast hq
  have hnum1 : c.num ≤ (c.den : Int) := by
    have hq : (c.num : ℚ) ≤ (c.den : ℚ) := by
      have := h1
      unfold PyFloat.toRat at this
      rwa [div_le_one hdq] at this
    exact_mod_cast hq
  have hb := roundHalfEvenInt_bounds hd (Int.mul_nonneg hnum0 (by norm_num))
    (by omega : c.num * 100 ≤ 100 * (c.den : Int))
  unfold pyRound2 PyFloat.toRat
  dsimp only
  constructor
  · refine div_nonneg ?_ (by norm_num)
    exact_mod_cast hb.1
  · rw [div_le_one (by norm_num)]
    exact_mod_cast hb.2

theorem lowerFridge_mem : ∀ {fridge : List Json} {L : List String},
    lowerFridge fridge = .ok L → ∀ x ∈ L, ∃ s, Json.str s ∈ fridge ∧ strLower s = x := by
  intro fridge
  induction fridge with
  | nil =>
    intro L h x hx
    have : ([] : List String) = L := Except.ok.inj h
    rw [← this] at hx
    cases hx
  | cons j rest ih =>
    intro L h x hx
    cases j with
    | str s =>
      rw [show lowerFridge (Json.str s :: rest) =
        (lowerFridge rest).map (fun l => strLower s :: l) from rfl] at h
      cases hr : lowerFridge rest with
      | error err => rw [hr] at h; cases h
      | ok L' =>
        rw [hr] at h
        have hL : strLower s :: L' = L := Except.ok.inj h
        rw [← hL] at hx
        rcases List.mem_cons.mp hx with rfl | hx'
        · exact ⟨s, List.mem_cons_self _ _, rfl⟩
        · rcases ih hr x hx' with ⟨s', hmem, heq⟩
          exact ⟨s', List.mem_cons_of_mem _ hmem, heq⟩
    | null => cases h
    | bool b => cases h
    | num q => cases h
    | arr l => cases h
    | obj kvs => cases h

theorem processSub_shape {fridge : List Json} {sub : Json} {e : SubEntry}
    (h : processSub fridge sub = .ok (some e)) :
    e.inFridge = true ∧ e.ingredient ≠ "" ∧
      (∃ s, Json.str s ∈ fridge ∧ strLower s = strLower e.ingredient) ∧
      (∃ c, e.confidence = pyRound2 (clamp01 c)) ∧
      reasonLen e.reasoning ≤ 200 := by
  unfold processSub at h
  cases sub with
  | obj kvs =>
    cases hname : (dictGet (Json.obj kvs) "ingredient").getD (Json.str "") with
    | str s0 =>
      rw [hname] at h
      dsimp only at h
      by_cases hemp : pyStrip s0 = ""
      · rw [if_pos hemp] at h
        exact Option.noConfusion (Except.ok.inj h)
      · rw [if_neg hemp] at h
        cases hc : (match (dictGet (Json.obj kvs) "confidence").getD
            (Json.num ⟨1, 2, by norm_num⟩) with
          | Json.str s => Except.ok ((pyFloatOfString s).getD ⟨1, 2, by norm_num⟩)
          | Json.num q => Except.ok q
          | Json.bool b => Except.ok (PyFloat.ofInt (if b then 1 else 0))
          | _ => Except.error () : Except Unit PyFloat) with
        | error err => rw [hc] at h; cases h
        | ok conf0 =>
          rw [hc] at h
          cases hlf : lowerFridge fridge with
          | error err => rw [hlf] at h; cases h
          | ok L =>
            rw [hlf] at h
            dsimp only at h
            by_cases hin : L.contains (strLower (pyStrip s0)) = true
            · rw [if_neg (not_not_intro hin)] at h
              have hmem : strLower (pyStrip s0) ∈ L := List.elem_iff.mp hin
              rcases lowerFridge_mem hlf _ hmem with ⟨s, hsf, hslow⟩
              cases hreason : (dictGet (Json.obj kvs) "reasoning").getD
                  (Json.str "Suitable alternative") with
              | str rs =>
                rw [hreason] at h
                have he := Option.some.inj (Except.ok.inj h)
                rw [← he]
                refine ⟨rfl, hemp, ⟨s, hsf, hslow⟩, ⟨conf0, rfl⟩, ?_⟩
                show (String.mk (rs.data.take 200)).length ≤ 200
                show (rs.data.take 200).length ≤ 200
                rw [List.length_take]
                omega
              | arr rl =>
                rw [hreason] at h
                have he := Option.some.inj (Except.ok.inj h)
                rw [← he]
                refine ⟨rfl, hemp, ⟨s, hsf, hslow⟩, ⟨conf0, rfl⟩, ?_⟩
                show (rl.take 200).length ≤ 200
                rw [List.length_take]
                omega
              | null => rw [hreason] at h; cases h
              | bool b => rw [hreason] at h; cases h
              | num q => rw [hreason] at h; cases h
              | obj o => rw [hreason] at h; cases h
            · rw [if_pos hin] at h
              exact Option.noConfusion (Except.ok.inj h)
    | null => rw [hname] at h; cases h
    | bool b => rw [hname] at h; cases h
    | num q => rw [hname] at h; cases h
    | arr l => rw [hname] at h; cases h
    | obj o => rw [hname] at h; cases h
  | null => exact Option.noConfusion (Except.ok.inj h)
  | bool b => exact Option.noConfusion (Except.ok.inj h)
  | num q => exact Option.noConfusion (Except.ok.inj h)
  | str s => exact Option.noConfusion (Except.ok.inj h)
  | arr l => exact Option.noConfusion (Except.ok.inj h)

theorem collectSubs_mem {fridge : List Json} :
    ∀ {items : List Json} {entries : List SubEntry},
      collectSubs fridge items = .ok entries →
      ∀ e ∈ entries, ∃ sub, processSub fridge sub = .ok (some e) := by
  intro items
  induction items with
  | nil =>
    intro entries h e he
    have : ([] : List SubEntry) = entries := Except.ok.inj h
    rw [← this] at he
    cases he
  | cons sub rest ih =>
    intro entries h e he
    rw [show collectSubs fridge (sub :: rest) =
      (match processSub fridge sub with
        | .error err => .error err
        | .ok none => collectSubs fridge rest
        | .ok (some e0) => (collectSubs fridge rest).map (fun l => e0 :: l)) from rfl] at h
    cases hp : processSub fridge sub with
    | error err => rw [hp] at h; cases h
    | ok o =>
      rw [hp] at h
      cases o with
      | none => exact ih h e he
      | some e0 =>
        cases hr : collectSubs fridge rest with
        | error err => rw [hr] at h; cases h
        | ok l' =>
          rw [hr] at h
          have hent : e0 :: l' = entries := Except.ok.inj h
          rw [← hent] at he
          rcases List.mem_cons.mp he with rfl | he'
          · exact ⟨sub, hp⟩
          · exact ih hr e he'

theorem confGE_iff (a b : SubEntry) :
    confGE a b ↔ b.confidence.toRat ≤ a.confidence.toRat := by
  unfold confGE PyFloat.toRat
  rw [div_le_div_iff₀ b.confidence.toRat_den_pos a.confidence.toRat_den_pos]
  constructor
  · intro h; exact_mod_cast h
  · intro h; exact_mod_cast h

/-- Every successful return of `generate_substitution_suggestions` is
either one of the `[]` defaults or the sorted, truncated list of validated
entries. -/
theorem gen_ok_cases {resp : Option String} {ri fridge : List Json} {l : List SubEntry}
    (h : generate_substitution_suggestions resp ri fridge = .ok l) :
    l = [] ∨ ∃ entries, l = (List.insertionSort confGE entries).take 3 ∧
      ∀ e ∈ entries, ∃ sub, processSub fridge sub = .ok (some e) := by
  unfold generate_substitution_suggestions at h
  cases hj1 : (if fridge.isEmpty then Except.ok () else pyJoinStrs (fridge.take 20)) with
  | error err => rw [hj1] at h; cases h
  | ok u1 =>
    rw [hj1] at h
    dsimp only at h
    cases hj2 : pyJoinStrs (ri.take 10) with
    | error err => rw [hj2] at h; cases h
    | ok u2 =>
      rw [hj2] at h
      dsimp only at h
      cases resp with
      | none => exact Or.inl (Except.ok.inj h).symm
      | some r =>
        dsimp only at h
        by_cases hre : r = ""
        · rw [if_pos hre] at h
          exact Or.inl (Except.ok.inj h).symm
        · rw [if_neg hre] at h
          cases hg : genBody r fridge with
          | error err => rw [hg] at h; exact Or.inl (Except.ok.inj h).symm
          | ok l' =>
            rw [hg] at h
            have hl : l' = l := Except.ok.inj h
            unfold genBody at hg
            cases hld : json_loads r with
            | none =>
              rw [hld] at hg
              exact Or.inl (hl ▸ Except.ok.inj hg).symm
            | some parsed =>
              rw [hld] at hg
              cases parsed with
              | obj kvs =>
                dsimp only at hg
                cases hit : pyIterate ((dictGet (Json.obj kvs) "substitutes").getD
                    (Json.arr [])) with
                | error err => rw [hit] at hg; cases hg
                | ok items =>
                  rw [hit] at hg
                  dsimp only at hg
                  cases hcs : collectSubs fridge items with
                  | error err => rw [hcs] at hg; cases hg
                  | ok entries =>
                    rw [hcs] at hg
                    refine Or.inr ⟨entries, ?_, collectSubs_mem hcs⟩
                    rw [← hl, ← Except.ok.inj hg]
              | null => cases hg
              | bool b => cases hg
              | num q => cases hg
              | str s => cases hg
              | arr a => cases hg

/-- C5: every substitute returned by `generate_substitution_suggestions`
names a (non-empty) ingredient present in the supplied fridge list under
case-insensitive comparison and carries `inFridge = true`; suggestions
absent from the fridge, with empty names, or that are not dicts never
appear in the result (ai_service.py lines 156-199). -/
theorem claim5_main (resp : Option String) (ri fridge : List Json) (l : List SubEntry)
    (h : generate_substitution_suggestions resp ri fridge = .ok l) :
    ∀ e ∈ l, e.inFridge = true ∧ e.ingredient ≠ "" ∧
      ∃ s, Json.str s ∈ fridge ∧ strLower s = strLower e.ingredient := by
  intro e he
  rcases gen_ok_cases h with rfl | ⟨entries, rfl, hmem⟩
  · cases he
  · have he1 : e ∈ List.insertionSort confGE entries := List.take_subset _ _ he
    have he2 : e ∈ entries :=
      (List.Perm.mem_iff (List.perm_insertionSort confGE entries)).mp he1
    rcases hmem e he2 with ⟨sub, hp⟩
    rcases processSub_shape hp with ⟨hf, hne, hlink, _, _⟩
    exact ⟨hf, hne, hlink⟩

set_option maxRecDepth 16000 in
/-- C5, witness: one suggestion matching the fridge item `"basil"` up to
case survives with `inFridge = true`. -/
theorem claim5_witness :
    generate_substitution_suggestions
        (some "\x7b\"substitutes\": [\x7b\"ingredient\": \"Basil\", \"confidence\": 0.9, \"reasoning\": \"herby\"\x7d]\x7d")
        [] [Json.str "basil"] =
      .ok [⟨"Basil", true, ⟨90, 100, by norm_num⟩, Json.str "herby"⟩] ∧
      ((⟨"Basil", true, ⟨90, 100, by norm_num⟩, Json.str "herby"⟩ : SubEntry).inFridge = true ∧
        (⟨"Basil", true, ⟨90, 100, by norm_num⟩, Json.str "herby"⟩ : SubEntry).ingredient ≠ "" ∧
        ∃ s, Json.str s ∈ [Json.str "basil"] ∧
          strLower s = strLower (⟨"Basil", true, ⟨90, 100, by norm_num⟩,
            Json.str "herby"⟩ : SubEntry).ingredient) :=
  ⟨rfl,
    claim5_main
      (some "\x7b\"substitutes\": [\x7b\"ingredient\": \"Basil\", \"confidence\": 0.9, \"reasoning\": \"herby\"\x7d]\x7d")
      [] [Json.str "basil"]
      [⟨"Basil", true, ⟨90, 100, by norm_num⟩, Json.str "herby"⟩] rfl
      ⟨"Basil", true, ⟨90, 100, by norm_num⟩, Json.str "herby"⟩
      (List.mem_singleton_self _)⟩

/-- C6: every returned confidence lies in `[0, 1]`: a missing value
defaults to 0.5, a string value is converted (falling back to 0.5), and
the result is clamped to `[0, 1]` and rounded to two decimals
(ai_service.py lines 172-197). -/
theorem claim6_main (resp : Option String) (ri fridge : List Json) (l : List SubEntry)
    (h : generate_substitution_suggestions resp ri fridge = .ok l) :
    ∀ e ∈ l, 0 ≤ e.confidence.toRat ∧ e.confidence.toRat ≤ 1 := by
  intro e he
  rcases gen_ok_cases h with rfl | ⟨entries, rfl, hmem⟩
  · cases he
  · have he1 : e ∈ List.insertionSort confGE entries := List.take_subset _ _ he
    have he2 : e ∈ entries :=
      (List.Perm.mem_iff (List.perm_insertionSort confGE entries)).mp he1
    rcases hmem e he2 with ⟨sub, hp⟩
    rcases processSub_shape hp with ⟨_, _, _, ⟨c, hc⟩, _⟩
    rw [hc]
    exact pyRound2_bounds (clamp01_bounds c).1 (clamp01_bounds c).2

set_option maxRecDepth 16000 in
/-- C6, witness: a confidence of 2.5 is clamped to 1.0 and the returned
value lies in the unit interval. -/
theorem claim6_witness :
    generate_substitution_suggestions
        (some "\x7b\"substitutes\": [\x7b\"ingredient\": \"Rice\", \"confidence\": 2.5\x7d]\x7d")
        [] [Json.str "rice"] =
      .ok [⟨"Rice", true, ⟨100, 100, by norm_num⟩, Json.str "Suitable alternative"⟩] ∧
      (0 ≤ (⟨"Rice", true, ⟨100, 100, by norm_num⟩,
          Json.str "Suitable alternative"⟩ : SubEntry).confidence.toRat ∧
        (⟨"Rice", true, ⟨100, 100, by norm_num⟩,
          Json.str "Suitable alternative"⟩ : SubEntry).confidence.toRat ≤ 1) :=
  ⟨rfl,
    claim6_main
      (some "\x7b\"substitutes\": [\x7b\"ingredient\": \"Rice\", \"confidence\": 2.5\x7d]\x7d")
      [] [Json.str "rice"]
      [⟨"Rice", true, ⟨100, 100, by norm_num⟩, Json.str "Suitable alternative"⟩] rfl
      ⟨"Rice", true, ⟨100, 100, by norm_num⟩, Json.str "Suitable alternative"⟩
      (List.mem_singleton_self _)⟩

/-- C9: the returned list has at most three entries, is sorted in
non-increasing order of confidence, and every entry's reasoning (string
characters or list elements, after the `[:200]` slice) has length at most
200 (ai_service.py lines 192-207). -/
theorem claim9_main (resp : Option String) (ri fridge : List Json) (l : List SubEntry)
    (h : generate_substitution_suggestions resp ri fridge = .ok l) :
    l.length ≤ 3 ∧
      List.Sorted (fun a b => b.confidence.toRat ≤ a.confidence.toRat) l ∧
      ∀ e ∈ l, reasonLen e.reasoning ≤ 200 := by
  rcases gen_ok_cases h with rfl | ⟨entries, rfl, hmem⟩
  · exact ⟨by norm_num, List.sorted_nil, fun e he => absurd he (List.not_mem_nil e)⟩
  · refine ⟨?_, ?_, ?_⟩
    · rw [List.length_take]
      exact Nat.min_le_left _ _
    · have hs : List.Sorted confGE (List.insertionSort confGE entries) :=
        List.sorted_insertionSort confGE entries
      have hs2 : List.Sorted confGE ((List.insertionSort confGE entries).take 3) :=
        List.Pairwise.sublist (List.take_sublist 3 _) hs
      exact List.Pairwise.imp (fun hab => (confGE_iff _ _).mp hab) hs2
    · intro e he
      have he1 : e ∈ List.insertionSort confGE entries := List.take_subset _ _ he
      have he2 : e ∈ entries :=
        (List.Perm.mem_iff (List.perm_insertionSort confGE entries)).mp he1
      rcases hmem e he2 with ⟨sub, hp⟩
      exact (processSub_shape hp).2.2.2.2

set_option maxRecDepth 16000 in
/-- C9, witness: four valid fridge-matching suggestions are sorted by
confidence and truncated to three. -/
theorem claim9_witness :
    generate_substitution_suggestions
        (some "\x7b\"substitutes\": [\x7b\"ingredient\": \"a\", \"confidence\": 0.5\x7d, \x7b\"ingredient\": \"b\", \"confidence\": 0.9\x7d, \x7b\"ingredient\": \"c\", \"confidence\": 0.7\x7d, \x7b\"ingredient\": \"d\", \"confidence\": 0.8\x7d]\x7d")
        [] [Json.str "a", Json.str "b", Json.str "c", Json.str "d"] =
      .ok [⟨"b", true, ⟨90, 100, by norm_num⟩, Json.str "Suitable alternative"⟩,
        ⟨"d", true, ⟨80, 100, by norm_num⟩, Json.str "Suitable alternative"⟩,
        ⟨"c", true, ⟨70, 100, by norm_num⟩, Json.str "Suitable alternative"⟩] ∧
      ([⟨"b", true, ⟨90, 100, by norm_num⟩, Json.str "Suitable alternative"⟩,
        ⟨"d", true, ⟨80, 100, by norm_num⟩, Json.str "Suitable alternative"⟩,
        ⟨"c", true, ⟨70, 100, by norm_num⟩,
          Json.str "Suitable alternative"⟩] : List SubEntry).length ≤ 3 ∧
      List.Sorted (fun a b : SubEntry => b.confidence.toRat ≤ a.confidence.toRat)
        [⟨"b", true, ⟨90, 100, by norm_num⟩, Json.str "Suitable alternative"⟩,
         ⟨"d", true, ⟨80, 100, by norm_num⟩, Json.str "Suitable alternative"⟩,
         ⟨"c", true, ⟨70, 100, by norm_num⟩, Json.str "Suitable alternative"⟩] ∧
      ∀ e ∈ ([⟨"b", true, ⟨90, 100, by norm_num⟩, Json.str "Suitable alternative"⟩,
        ⟨"d", true, ⟨80, 100, by norm_num⟩, Json.str "Suitable alternative"⟩,
        ⟨"c", true, ⟨70, 100, by norm_num⟩,
          Json.str "Suitable alternative"⟩] : List SubEntry),
        reasonLen e.reasoning ≤ 200 := by
  refine ⟨rfl, ?_⟩
  have := claim9_main
    (some "\x7b\"substitutes\": [\x7b\"ingredient\": \"a\", \"confidence\": 0.5\x7d, \x7b\"ingredient\": \"b\", \"confidence\": 0.9\x7d, \x7b\"ingredient\": \"c\", \"confidence\": 0.7\x7d, \x7b\"ingredient\": \"d\", \"confidence\": 0.8\x7d]\x7d")
    [] [Json.str "a", Json.str "b", Json.str "c", Json.str "d"]
    [⟨"b", true, ⟨90, 100, by norm_num⟩, Json.str "Suitable alternative"⟩,
     ⟨"d", true, ⟨80, 100, by norm_num⟩, Json.str "Suitable alternative"⟩,
     ⟨"c", true, ⟨70, 100, by norm_num⟩, Json.str "Suitable alternative"⟩] rfl
  exact this

/-- C8, counterexample: with a fridge list containing a non-string item,
`', '.join(fridge_supplies[:20])` at ai_service.py line 100 raises
`TypeError` before the `try` of line 139 begins, so
`generate_substitution_suggestions` raises to its caller instead of
returning a default: it is not exception-free for every input. -/
theorem claim8_cex :
    generate_substitution_suggestions (some "\x7b\"substitutes\": []\x7d") []
      [Json.num ⟨1, 1, Nat.one_pos⟩] = .error () :=
  rfl

/-- C8, amended: whenever the prompt construction succeeds — the first 20
fridge items and first 10 recipe items joined into the prompt are strings —
`generate_substitution_suggestions` never raises: it always returns a
list, and a `None` response, an empty response, or a response that is not
valid JSON (as well as any exception inside the generation/validation
block, which the handlers of lines 209 and 214 catch) produces the empty
list. -/
theorem claim8_main (resp : Option String) (ri fridge : List Json)
    (hf : (fridge.take 20).all isStrB = true) (hr : (ri.take 10).all isStrB = true) :
    (∃ l, generate_substitution_suggestions resp ri fridge = .ok l) ∧
      (resp = none → generate_substitution_suggestions resp ri fridge = .ok []) ∧
      (resp = some "" → generate_substitution_suggestions resp ri fridge = .ok []) ∧
      (∀ r, resp = some r → json_loads r = none →
        generate_substitution_suggestions resp ri fridge = .ok []) := by
  have hjf : (if fridge.isEmpty then Except.ok () else pyJoinStrs (fridge.take 20)) =
      Except.ok () := by
    by_cases he : fridge.isEmpty
    · rw [if_pos he]
    · rw [if_neg he]
      unfold pyJoinStrs
      rw [if_pos hf]
  have hjr : pyJoinStrs (ri.take 10) = .ok () := by
    unfold pyJoinStrs
    rw [if_pos hr]
  unfold generate_substitution_suggestions
  rw [hjf, hjr]
  dsimp only
  refine ⟨?_, ?_, ?_, ?_⟩
  · cases resp with
    | none => exact ⟨[], rfl⟩
    | some r =>
      dsimp only
      by_cases hre : r = ""
      · rw [if_pos hre]
        exact ⟨[], rfl⟩
      · rw [if_neg hre]
        cases hg : genBody r fridge with
        | ok l => exact ⟨l, rfl⟩
        | error err => exact ⟨[], rfl⟩
  · intro hnone
    rw [hnone]
  · intro hempty
    rw [hempty]
    dsimp only
    rw [if_pos rfl]
  · intro r hsome hld
    rw [hsome]
    dsimp only
    by_cases hre : r = ""
    · rw [if_pos hre]
    · rw [if_neg hre]
      have hg : genBody r fridge = .ok [] := by
        unfold genBody
        rw [hld]
      rw [hg]

/-- C8, witness: a well-typed request with an unparseable LLM response
returns the empty list rather than raising. -/
theorem claim8_witness :
    (([Json.str "basil"].take 20).all isStrB = true ∧
      (([] : List Json).take 10).all isStrB = true) ∧
      ((∃ l, generate_substitution_suggestions (some "not json") [] [Json.str "basil"] = .ok l) ∧
        (some "not json" = none →
          generate_substitution_suggestions (some "not json") [] [Json.str "basil"] = .ok []) ∧
        (some "not json" = some "" →
          generate_substitution_suggestions (some "not json") [] [Json.str "basil"] = .ok []) ∧
        (∀ r, some "not json" = some r → json_loads r = none →
          generate_substitution_suggestions (some "not json") [] [Json.str "basil"] = .ok [])) :=
  ⟨⟨by decide, by decide⟩,
    claim8_main (some "not json") [] [Json.str "basil"] (by decide) (by decide)⟩
